import Mathlib

/-!
# jsonoscope: digests of JSON trees

A shallow embedding of `recurse.go`, `equal.go` and `visitor.go`.

* Byte slices are lists of naturals below 256; a nil slice and an empty slice
  are both `[]` (the code only ranges over, writes and compares them).
* Go strings delivered by the tokenizer are valid UTF-8, so they are Lean
  strings and `[]byte(s)` is the UTF-8 encoding `bytes s`.
* `crypto/sha1` is the function `sha1` (FIPS 180-4); a `hash.Hash` value is the
  list of bytes written since the last `Reset`.
* `encoding/json`'s `Decoder` is an arbitrary state machine with the two
  operations the traversal uses, `Token` and `More`.
* A `Visitor` is a state machine as well: its state stands for whatever the
  callbacks mutate.
* Recursion is driven by a fuel counter; a run that uses it up is `outOfFuel`.
-/

namespace Jsonoscope

/-! ## Bytes and SHA-1 -/

abbrev Bytes := List Nat

/-- Rotate a 32-bit word left by `n` bits. -/
def rotl32 (x n : Nat) : Nat := ((x <<< n) ||| (x >>> (32 - n))) % 4294967296

/-- Big-endian bytes of a 32-bit word. -/
def be32 (x : Nat) : Bytes := [x >>> 24 % 256, x >>> 16 % 256, x >>> 8 % 256, x % 256]

/-- Big-endian bytes of a 64-bit word. -/
def be64 (x : Nat) : Bytes := be32 (x >>> 32 % 4294967296) ++ be32 (x % 4294967296)

/-- SHA-1 padding: a `0x80` byte, zeros up to 56 mod 64, the bit length on 64 bits. -/
def sha1Pad (m : Bytes) : Bytes :=
  m ++ 128 :: List.replicate ((119 - m.length % 64) % 64) 0
    ++ be64 (8 * m.length % 18446744073709551616)

/-- The first `n` big-endian 32-bit words of a block. -/
def sha1Words : Nat → Bytes → List Nat
  | 0, _ => []
  | n + 1, b0 :: b1 :: b2 :: b3 :: rest =>
    (((b0 * 256 + b1) * 256 + b2) * 256 + b3) :: sha1Words n rest
  | _ + 1, _ => []

/-- Extend the message schedule by `n` words; the newest word comes first. -/
def sha1Schedule : Nat → List Nat → List Nat
  | 0, ws => ws
  | n + 1, ws =>
    sha1Schedule n
      (rotl32 (ws.getD 2 0 ^^^ ws.getD 7 0 ^^^ ws.getD 13 0 ^^^ ws.getD 15 0) 1 :: ws)

/-- The five chaining words of SHA-1. -/
structure Sha1State where
  a : Nat
  b : Nat
  c : Nat
  d : Nat
  e : Nat
deriving DecidableEq, Repr

/-- Round function of round `i`. -/
def sha1F (i b c d : Nat) : Nat :=
  if i < 20 then (b &&& c) ||| ((b ^^^ 4294967295) &&& d)
  else if i < 40 then b ^^^ c ^^^ d
  else if i < 60 then (b &&& c) ||| (b &&& d) ||| (c &&& d)
  else b ^^^ c ^^^ d

/-- Round constant of round `i`. -/
def sha1K (i : Nat) : Nat :=
  if i < 20 then 0x5A827999
  else if i < 40 then 0x6ED9EBA1
  else if i < 60 then 0x8F1BBCDC
  else 0xCA62C1D6

/-- Run the rounds over the schedule words, starting at round `i`. -/
def sha1Rounds : Nat → List Nat → Sha1State → Sha1State
  | _, [], s => s
  | i, w :: ws, s =>
    sha1Rounds (i + 1) ws
      ⟨(rotl32 s.a 5 + sha1F i s.b s.c s.d + s.e + sha1K i + w) % 4294967296,
       s.a, rotl32 s.b 30, s.c, s.d⟩

/-- Compress one 64-byte block into the chaining state. -/
def sha1Block (h : Sha1State) (block : Bytes) : Sha1State :=
  let s := sha1Rounds 0 (sha1Schedule 64 (sha1Words 16 block).reverse).reverse h
  ⟨(h.a + s.a) % 4294967296, (h.b + s.b) % 4294967296, (h.c + s.c) % 4294967296,
   (h.d + s.d) % 4294967296, (h.e + s.e) % 4294967296⟩

/-- Compress `n` consecutive blocks. -/
def sha1Blocks : Nat → Sha1State → Bytes → Sha1State
  | 0, h, _ => h
  | n + 1, h, m => sha1Blocks n (sha1Block h (m.take 64)) (m.drop 64)

/-- SHA-1 of a byte string: what `Reset`, `Write`s of `m` and `Sum(nil)` return. -/
def sha1 (m : Bytes) : Bytes :=
  let p := sha1Pad m
  let h := sha1Blocks (p.length / 64)
    ⟨0x67452301, 0xEFCDAB89, 0x98BADCFE, 0x10325476, 0xC3D2E1F0⟩ p
  be32 h.a ++ be32 h.b ++ be32 h.c ++ be32 h.d ++ be32 h.e

/-- The value of `h.Size()` for SHA-1. -/
def sha1Size : Nat := 20

/-- The conversion `[]byte(s)`. -/
def bytes (s : String) : Bytes := s.toUTF8.data.toList.map UInt8.toNat

/-- Lower-case hexadecimal rendering of a digest, as in the tests' vectors. -/
def hex (b : Bytes) : String :=
  String.mk (b.flatMap fun x =>
    [Nat.digitChar (x / 16), Nat.digitChar (x % 16)])

/-! ## Tokens, decoder, visitor -/

/-- The type of the value at a JSON path (`Token` in `recurse.go`). -/
inductive Token where
  | Null
  | Number
  | Boolean
  | String
  | Array
  | Object
deriving DecidableEq, Repr

/-- A `json.Token`: a delimiter, a boolean, a `json.Number` (the decoder runs
with `UseNumber`), a string, nil, or a value of any other dynamic type. -/
inductive JToken where
  | Delim (c : Char)
  | bool (b : Bool)
  | Number (lit : String)
  | string (s : String)
  | nil
  | other
deriving DecidableEq, Repr

/-- Errors a token read can report. -/
inductive GoError where
  | EOF
  | ErrUnexpectedEOF
  | SyntaxError
deriving DecidableEq, Repr

/-- How a call ends: it returns `a`, it panics, or the fuel ran out; the last
two carry the state reached at that point. -/
inductive Outcome (α β : Type) where
  | returned (a : α)
  | panicked (s : β)
  | outOfFuel (s : β)
deriving DecidableEq, Repr

/-- The two operations of `*json.Decoder` used by the traversal. `token` is
`dec.Token()`: on an error the returned token is nil. `more` is `dec.More()`. -/
structure Decoder (σ : Type) where
  token : σ → Except GoError JToken × σ
  more : σ → Bool × σ

/-- The `Visitor` interface. -/
structure Visitor (ν : Type) where
  Enter : String → Token → ν → ν
  Exit : String → Token → Bytes → ν → ν

/-- The `CustomVisitor` struct: two optional callbacks. -/
structure CustomVisitor (ν : Type) where
  OnEnter : Option (String → Token → ν → ν)
  OnExit : Option (String → Token → Bytes → ν → ν)

/-- Transcription of `CustomVisitor.Enter`. -/
def CustomVisitor.Enter (cv : CustomVisitor ν) (path : String) (token : Token) (s : ν) : ν :=
  match cv.OnEnter with
  | some f => f path token s
  | none => s

/-- Transcription of `CustomVisitor.Exit`. -/
def CustomVisitor.Exit (cv : CustomVisitor ν) (path : String) (token : Token)
    (signature : Bytes) (s : ν) : ν :=
  match cv.OnExit with
  | some f => f path token signature s
  | none => s

/-- A `CustomVisitor` used as a `Visitor`. -/
def CustomVisitor.toVisitor (cv : CustomVisitor ν) : Visitor ν :=
  ⟨cv.Enter, cv.Exit⟩

/-- One visitor call. -/
inductive Event where
  | enter (path : String) (token : Token)
  | exit (path : String) (token : Token) (signature : Bytes)
deriving DecidableEq, Repr

/-- The visitor that records every call it receives, oldest first. -/
def traceVisitor : Visitor (List Event) :=
  ⟨fun path token log => log ++ [Event.enter path token],
   fun path token sig log => log ++ [Event.exit path token sig]⟩

/-- Deliver one recorded call to a visitor. -/
def Event.deliver (V : Visitor ν) (s : ν) : Event → ν
  | .enter path token => V.Enter path token s
  | .exit path token sig => V.Exit path token sig s

/-- Deliver a sequence of recorded calls to a visitor. -/
def replay (V : Visitor ν) (evs : List Event) (s : ν) : ν :=
  evs.foldl (Event.deliver V) s

/-! ## The recurser -/

/-- The `recurser` struct. `hasher` holds the bytes written since the last
`Reset`; `sigpool` holds the buffers the pool could hand out. -/
structure recurser (σ ν : Type) where
  dec : σ
  visitor : ν
  hasher : Bytes
  sigpool : List Bytes
  trueSig : Bytes
  falseSig : Bytes
  nullSig : Bytes

/-- The call `r.sigpool.Get()`: a pooled buffer, or a fresh zeroed one of
`h.Size()` bytes from `New`. -/
def sigpoolGet (r : recurser σ ν) : Bytes × recurser σ ν :=
  match r.sigpool with
  | [] => (List.replicate sha1Size 0, r)
  | b :: rest => (b, { r with sigpool := rest })

/-- The loop `for i, v := range sum { sig[i] = sig[i] ^ v }`. Both slices have
`h.Size()` bytes in the code; a `sum` longer than `sig` would panic in Go. -/
def xorInto : Bytes → Bytes → Bytes
  | s :: sig, v :: sum => (s ^^^ v) :: xorInto sig sum
  | sig, [] => sig
  | [], _ :: _ => []

/-- The test `strings.HasSuffix(s, suffix)`. -/
def HasSuffix (s suffix : String) : Bool := suffix.data.isSuffixOf s.data

/-- The call `strconv.FormatInt(idx, 10)`. -/
def FormatInt (idx : Int) : String := toString idx

/-- The statement `idx++` on an `int64`. -/
def incInt64 (idx : Int) : Int :=
  (idx + 1 + 9223372036854775808) % 18446744073709551616 - 9223372036854775808

/-- The `CountingVisitor`: `Enter` does nothing, `Exit` is `*cv = *cv + 1` on
an `int` of 64 bits. -/
def CountingVisitor : Visitor Int :=
  ⟨fun _ _ cv => cv, fun _ _ _ cv => incInt64 cv⟩

/-- Transcription of `CountingVisitor.Nodes`. -/
def CountingVisitor.Nodes (cv : Int) : Int := cv

/-- Transcription of `precompute`. -/
def precompute (r : recurser σ ν) : recurser σ ν :=
  let r := { r with hasher := [] }
  let r := { r with hasher := r.hasher ++ bytes "true" }
  let r := { r with trueSig := sha1 r.hasher }
  let r := { r with hasher := [] }
  let r := { r with hasher := r.hasher ++ bytes "false" }
  let r := { r with falseSig := sha1 r.hasher }
  let r := { r with hasher := [] }
  let r := { r with hasher := r.hasher ++ bytes "null" }
  { r with nullSig := sha1 r.hasher }

/-- A scalar node: `Enter`, then `Exit` with its signature. -/
def visitScalar (V : Visitor ν) (path : String) (token : Token) (sig : Bytes)
    (r : recurser σ ν) : recurser σ ν :=
  { r with visitor := V.Exit path token sig (V.Enter path token r.visitor) }

mutual

/-- Transcription of `recurseToken`. -/
def recurseToken (D : Decoder σ) (V : Visitor ν) :
    Nat → String → JToken → recurser σ ν →
      Outcome (Bytes × Option GoError × recurser σ ν) (recurser σ ν)
  | 0, _, _, r => .outOfFuel r
  | fuel + 1, path, t, r =>
    match t with
    | .Delim c =>
      if c = '[' then
        match recurseArray D V fuel path
            { r with visitor := V.Enter path Token.Array r.visitor } with
        | .returned (sig, err, r) =>
          .returned (sig, err, { r with visitor := V.Exit path Token.Array sig r.visitor })
        | .panicked r => .panicked r
        | .outOfFuel r => .outOfFuel r
      else if c = '\x7b' then
        match recurseObject D V fuel path
            { r with visitor := V.Enter path Token.Object r.visitor } with
        | .returned (sig, err, r) =>
          .returned (sig, err, { r with visitor := V.Exit path Token.Object sig r.visitor })
        | .panicked r => .panicked r
        | .outOfFuel r => .outOfFuel r
      else .returned ([], none, r)
    | .bool tt =>
      let sig := if tt then r.trueSig else r.falseSig
      .returned (sig, none, visitScalar V path Token.Boolean sig r)
    | .Number tt =>
      let r := { r with hasher := [] ++ bytes tt }
      let sig := sha1 r.hasher
      .returned (sig, none, visitScalar V path Token.Number sig r)
    | .string tt =>
      let r := { r with hasher := [] ++ bytes ("\"" ++ tt ++ "\"") }
      let sig := sha1 r.hasher
      .returned (sig, none, visitScalar V path Token.String sig r)
    | .nil => .returned (r.nullSig, none, visitScalar V path Token.Null r.nullSig r)
    | .other => .returned ([], none, r)

/-- Transcription of `recurseArray`: a fresh hash `hh`, `idx = 0`, the loop. -/
def recurseArray (D : Decoder σ) (V : Visitor ν) :
    Nat → String → recurser σ ν →
      Outcome (Bytes × Option GoError × recurser σ ν) (recurser σ ν)
  | 0, _, r => .outOfFuel r
  | fuel + 1, path, r => arrayLoop D V fuel path 0 [] r

/-- The loop of `recurseArray`; `hh` holds the bytes written to the array's
hash so far. The error of the element read is overwritten by the next
assignment, and a failed read delivers a nil token. -/
def arrayLoop (D : Decoder σ) (V : Visitor ν) :
    Nat → String → Int → Bytes → recurser σ ν →
      Outcome (Bytes × Option GoError × recurser σ ν) (recurser σ ν)
  | 0, _, _, _, r => .outOfFuel r
  | fuel + 1, path, idx, hh, r =>
    if (D.more r.dec).1 then
      let read := D.token (D.more r.dec).2
      let t := match read.1 with
        | .ok t => t
        | .error _ => JToken.nil
      match recurseToken D V fuel (path ++ "[" ++ FormatInt idx ++ "]") t
          { r with dec := read.2 } with
      | .returned (h, none, r) => arrayLoop D V fuel path (incInt64 idx) (hh ++ h) r
      | .returned (_, some err, r) => .returned ([], some err, r)
      | .panicked r => .panicked r
      | .outOfFuel r => .outOfFuel r
    else
      .returned (sha1 hh, none, { r with dec := (D.token (D.more r.dec).2).2 })

/-- Transcription of `recurseObject`: a buffer from the pool, zeroed, the loop. -/
def recurseObject (D : Decoder σ) (V : Visitor ν) :
    Nat → String → recurser σ ν →
      Outcome (Bytes × Option GoError × recurser σ ν) (recurser σ ν)
  | 0, _, r => .outOfFuel r
  | fuel + 1, path, r =>
    objectLoop D V fuel path ((sigpoolGet r).1.map fun _ => 0) (sigpoolGet r).2

/-- The loop of `recurseObject`; `sig` is the signature buffer. A key that is
not a string makes the type assertion panic. -/
def objectLoop (D : Decoder σ) (V : Visitor ν) :
    Nat → String → Bytes → recurser σ ν →
      Outcome (Bytes × Option GoError × recurser σ ν) (recurser σ ν)
  | 0, _, _, r => .outOfFuel r
  | fuel + 1, path, sig, r =>
    if (D.more r.dec).1 then
      let read := D.token (D.more r.dec).2
      match read.1 with
      | .error err => .returned ([], some err, { r with dec := read.2 })
      | .ok (.string key) =>
        let subpath := if HasSuffix path "." then path ++ key else path ++ "." ++ key
        let read := D.token read.2
        match read.1 with
        | .error err => .returned ([], some err, { r with dec := read.2 })
        | .ok t =>
          match recurseToken D V fuel subpath t { r with dec := read.2 } with
          | .returned (valueSignature, none, r) =>
            let r := { r with hasher := [] ++ bytes key ++ valueSignature }
            objectLoop D V fuel path (xorInto sig (sha1 r.hasher)) r
          | .returned (_, some err, r) => .returned ([], some err, r)
          | .panicked r => .panicked r
          | .outOfFuel r => .outOfFuel r
      | .ok _ => .panicked { r with dec := read.2 }
    else
      .returned (sig, none, { r with dec := (D.token (D.more r.dec).2).2 })

end

/-- Transcription of `recurse`: read the root token, then `recurseToken`. -/
def recurse (D : Decoder σ) (V : Visitor ν) (fuel : Nat) (r : recurser σ ν) :
    Outcome (Bytes × Option GoError × recurser σ ν) (recurser σ ν) :=
  match (D.token r.dec).1 with
  | .error err => .returned ([], some err, { r with dec := (D.token r.dec).2 })
  | .ok t => recurseToken D V fuel "." t { r with dec := (D.token r.dec).2 }

/-- The recurser `Recurse` builds: a fresh hash, an empty pool. -/
def newRecurser (dec : σ) (vis : ν) : recurser σ ν :=
  ⟨dec, vis, [], [], [], [], []⟩

/-- Transcription of `Recurse`: the error of the traversal, and the visitor as
the traversal left it. -/
def Recurse (D : Decoder σ) (V : Visitor ν) (fuel : Nat) (dec : σ) (vis : ν) :
    Outcome (Option GoError × ν) ν :=
  match recurse D V fuel (precompute (newRecurser dec vis)) with
  | .returned (_, err, r) => .returned (err, r.visitor)
  | .panicked r => .panicked r.visitor
  | .outOfFuel r => .outOfFuel r.visitor

/-- The visitor of `Equal`: `OnExit` stores the signature seen at path `.`. -/
def rootSigVisitor : Visitor Bytes :=
  (CustomVisitor.mk none
    (some fun path _ sig cur => if path = "." then sig else cur)).toVisitor

/-- Transcription of `Equal`: both errors are discarded, the captured
signatures are compared with `bytes.Equal`, the error result is nil. -/
def Equal (D1 : Decoder σ) (D2 : Decoder τ) (fuel : Nat) (r1 : σ) (r2 : τ) :
    Outcome (Bool × Option GoError) Unit :=
  match Recurse D1 rootSigVisitor fuel r1 [] with
  | .returned (_, sig1) =>
    match Recurse D2 rootSigVisitor fuel r2 [] with
    | .returned (_, sig2) => .returned (decide (sig1 = sig2), none)
    | .panicked _ => .panicked ()
    | .outOfFuel _ => .outOfFuel ()
  | .panicked _ => .panicked ()
  | .outOfFuel _ => .outOfFuel ()

/-! ## A scripted decoder and well-formed documents -/

/-- One state of a scripted decoder: what `More` reports there, what `Token`
returns there, and whether that read moves on to the next state. -/
structure Cell where
  more : Bool
  read : Except GoError JToken
  advance : Bool

/-- A decoder that follows a script. Past the end of the script the input is
exhausted: `More` is false and `Token` reports `EOF`. -/
def scriptDecoder : Decoder (List Cell) where
  token
    | [] => (.error .EOF, [])
    | c :: cs => (c.read, if c.advance then cs else c :: cs)
  more
    | [] => (false, [])
    | c :: cs => (c.more, c :: cs)

/-- Whether a token is a closing delimiter: `More` peeks at the next
non-blank byte and is false exactly on `]` and `\x7d`. -/
def JToken.closes : JToken → Bool
  | .Delim c => c = ']' || c = '\x7d'
  | _ => false

/-- The cell of a token that is read without error. -/
def cellOf (t : JToken) : Cell := ⟨!t.closes, .ok t, true⟩

/-- The script of an input that tokenizes without error into `ts` and ends there. -/
def cells (ts : List JToken) : List Cell := ts.map cellOf

/-- A JSON value tree. Object members are kept in document order, and number
literals are kept as text. -/
inductive JSON where
  | null
  | bool (b : Bool)
  | number (lit : String)
  | string (s : String)
  | array (elems : List JSON)
  | object (members : List (String × JSON))

mutual

/-- The token stream of a value. -/
def JSON.tokens : JSON → List JToken
  | .null => [.nil]
  | .bool b => [.bool b]
  | .number lit => [.Number lit]
  | .string s => [.string s]
  | .array elems => .Delim '[' :: (elemTokens elems ++ [.Delim ']'])
  | .object members => .Delim '\x7b' :: (memberTokens members ++ [.Delim '\x7d'])

/-- The token stream of the elements of an array. -/
def elemTokens : List JSON → List JToken
  | [] => []
  | v :: vs => v.tokens ++ elemTokens vs

/-- The token stream of the members of an object. -/
def memberTokens : List (String × JSON) → List JToken
  | [] => []
  | (k, v) :: ms => .string k :: (v.tokens ++ memberTokens ms)

end

/-- The all-zero signature an object starts from. -/
def zeroSig : Bytes := List.replicate sha1Size 0

mutual

/-- The digest of a value according to the per-kind rules of the specification. -/
def JSON.digest : JSON → Bytes
  | .null => sha1 (bytes "null")
  | .bool b => if b then sha1 (bytes "true") else sha1 (bytes "false")
  | .number lit => sha1 (bytes lit)
  | .string s => sha1 (bytes ("\"" ++ s ++ "\""))
  | .array elems => sha1 (elemDigests elems)
  | .object members => memberDigest zeroSig members

/-- The digests of the elements of an array, concatenated in index order. -/
def elemDigests : List JSON → Bytes
  | [] => []
  | v :: vs => v.digest ++ elemDigests vs

/-- The XOR of `SHA1(key ++ digest value)` over the members, folded into `acc`
in encounter order. -/
def memberDigest (acc : Bytes) : List (String × JSON) → Bytes
  | [] => acc
  | (k, v) :: ms => memberDigest (xorInto acc (sha1 (bytes k ++ v.digest))) ms

end

/-- The kind of a value. -/
def JSON.kind : JSON → Token
  | .null => .Null
  | .bool _ => .Boolean
  | .number _ => .Number
  | .string _ => .String
  | .array _ => .Array
  | .object _ => .Object

/-- The path of the member `key` of an object at `path`. -/
def memberPath (path key : String) : String :=
  if HasSuffix path "." then path ++ key else path ++ "." ++ key

/-- The path of the element with index `idx` of an array at `path`. -/
def elemPath (path : String) (idx : Int) : String :=
  path ++ "[" ++ FormatInt idx ++ "]"

mutual

/-- The visitor calls of a depth-first walk of a value in document order:
`Enter` before the children, `Exit` with the digest after them. -/
def JSON.events (path : String) : JSON → List Event
  | .null => [.enter path .Null, .exit path .Null (sha1 (bytes "null"))]
  | .bool b =>
    [.enter path .Boolean,
     .exit path .Boolean (if b then sha1 (bytes "true") else sha1 (bytes "false"))]
  | .number lit => [.enter path .Number, .exit path .Number (sha1 (bytes lit))]
  | .string s =>
    [.enter path .String, .exit path .String (sha1 (bytes ("\"" ++ s ++ "\"")))]
  | .array elems =>
    .enter path .Array ::
      (elemEvents path 0 elems ++ [.exit path .Array (sha1 (elemDigests elems))])
  | .object members =>
    .enter path .Object ::
      (memberEvents path members ++ [.exit path .Object (memberDigest zeroSig members)])

/-- The visitor calls for the elements of an array, from index `idx` on. -/
def elemEvents (path : String) (idx : Int) : List JSON → List Event
  | [] => []
  | v :: vs => v.events (elemPath path idx) ++ elemEvents path (incInt64 idx) vs

/-- The visitor calls for the members of an object. -/
def memberEvents (path : String) : List (String × JSON) → List Event
  | [] => []
  | (k, v) :: ms => v.events (memberPath path k) ++ memberEvents path ms

end

mutual

/-- Fuel that suffices to traverse a value. -/
def JSON.fuel : JSON → Nat
  | .null => 1
  | .bool _ => 1
  | .number _ => 1
  | .string _ => 1
  | .array elems => 3 + elemFuel elems
  | .object members => 3 + memberFuel members

/-- Fuel that suffices for the loop over the elements of an array. -/
def elemFuel : List JSON → Nat
  | [] => 0
  | v :: vs => 1 + v.fuel + elemFuel vs

/-- Fuel that suffices for the loop over the members of an object. -/
def memberFuel : List (String × JSON) → Nat
  | [] => 0
  | (_, v) :: ms => 1 + v.fuel + memberFuel ms

end

/-- A recurser as `Recurse` sets it up: the three constant signatures are
precomputed, and every pooled buffer has `h.Size()` bytes. -/
def Ready (r : recurser σ ν) : Prop :=
  r.trueSig = sha1 (bytes "true") ∧ r.falseSig = sha1 (bytes "false") ∧
    r.nullSig = sha1 (bytes "null") ∧ ∀ b ∈ r.sigpool, b.length = sha1Size

/-- The script of the input that holds exactly the document `v`. -/
def JSON.doc (v : JSON) : List Cell := cells v.tokens

/-- A check that a sequence of visitor calls is paired and nested like
brackets: `open` is the stack of entered nodes that were not exited yet. -/
def nested : List (String × Token) → List Event → Bool
  | stack, [] => stack.isEmpty
  | stack, .enter p k :: evs => nested ((p, k) :: stack) evs
  | (q, j) :: stack, .exit p k _ :: evs => p = q && k = j && nested stack evs
  | [], .exit _ _ _ :: _ => false

/-- Structural identity of documents under the ordering rules: scalars by kind
and text, arrays element by element in order, objects as collections of
key/value pairs whatever their order. -/
inductive Same : JSON → JSON → Prop where
  | null : Same .null .null
  | bool (b : Bool) : Same (.bool b) (.bool b)
  | number (lit : String) : Same (.number lit) (.number lit)
  | string (s : String) : Same (.string s) (.string s)
  | arrayNil : Same (.array []) (.array [])
  | arrayCons : Same v w → Same (.array vs) (.array ws) →
      Same (.array (v :: vs)) (.array (w :: ws))
  | objectNil : Same (.object []) (.object [])
  | objectCons (k : String) : Same v w → Same (.object ms) (.object ns) →
      Same (.object ((k, v) :: ms)) (.object ((k, w) :: ns))
  | objectPerm : ms.Perm ns → Same (.object ms) (.object ns)
  | trans : Same u v → Same v w → Same u w

mutual

/-- The number of values in a document tree: the root, every nested
container and every scalar. -/
def JSON.nodes : JSON → Nat
  | .null => 1
  | .bool _ => 1
  | .number _ => 1
  | .string _ => 1
  | .array elems => 1 + elemNodes elems
  | .object members => 1 + memberNodes members

/-- The number of values below the elements of an array. -/
def elemNodes : List JSON → Nat
  | [] => 0
  | v :: vs => v.nodes + elemNodes vs

/-- The number of values below the members of an object. -/
def memberNodes : List (String × JSON) → Nat
  | [] => 0
  | (_, v) :: ms => v.nodes + memberNodes ms

end

/-! ## Concrete inputs -/

/-- The document `[1, 2]`. -/
def oneTwo : JSON := .array [.number "1", .number "2"]

/-- The document `[2, 1]`. -/
def twoOne : JSON := .array [.number "2", .number "1"]

/-- The document `[1, 2, 3]`. -/
def oneTwoThree : JSON := .array [.number "1", .number "2", .number "3"]

/-- The document `[1, 3, 2]`. -/
def oneThreeTwo : JSON := .array [.number "1", .number "3", .number "2"]

/-- The object with the members `Planet: "Earth"` and `Index: 3`, in this order. -/
def planetFirst : JSON := .object [("Planet", .string "Earth"), ("Index", .number "3")]

/-- The object with the members `Index: 3` and `Planet: "Earth"`, in this order. -/
def indexFirst : JSON := .object [("Index", .number "3"), ("Planet", .string "Earth")]

/-- The object that holds the member `a: 1` twice. -/
def twiceA : JSON := .object [("a", .number "1"), ("a", .number "1")]

/-- The object without members. -/
def noMembers : JSON := .object []

/-- The object whose only member has the empty key and the value `1`. -/
def emptyKey : JSON := .object [("", .number "1")]

/-- The empty input: the first read reports `EOF`. -/
def emptyStream : List Cell := []

/-- The truncated input `[1`: after the `1` the input ends, so `More` is false
and the next read reports `EOF`. -/
def truncatedArray : List Cell := cells [.Delim '[', .Number "1"]

/-- The truncated input that opens an object, gives the member `a: 1` and ends. -/
def truncatedObject : List Cell := cells [.Delim '\x7b', .string "a", .Number "1"]

/-- The input `[1,]`. After the `1` the next byte is a comma, so `More` is true;
the read skips the comma and fails on the `]` with a syntax error; from then
on the next byte is `]`, so `More` is false, and reads keep failing. -/
def trailingComma : List Cell :=
  [cellOf (.Delim '['), cellOf (.Number "1"),
   ⟨true, .error .SyntaxError, true⟩, ⟨false, .error .SyntaxError, false⟩]

/-- The input `[x`. The byte `x` starts no value: the read fails with a syntax
error and consumes nothing, so `More` stays true and every later read fails. -/
def stuckArray : List Cell :=
  [cellOf (.Delim '['), ⟨true, .error .SyntaxError, false⟩]

/-- The object of the RFC 7159 sample for San Francisco. -/
def sanFrancisco : JSON := .object
  [("precision", .string "zip"), ("Latitude", .number "37.7668"),
   ("Longitude", .number "-122.3959"), ("Address", .string ""),
   ("City", .string "SAN FRANCISCO"), ("State", .string "CA"),
   ("Zip", .string "94107"), ("Country", .string "US")]

/-- The object of the RFC 7159 sample for Sunnyvale. -/
def sunnyvale : JSON := .object
  [("precision", .string "zip"), ("Latitude", .number "37.371991"),
   ("Longitude", .number "-122.026020"), ("Address", .string ""),
   ("City", .string "SUNNYVALE"), ("State", .string "CA"),
   ("Zip", .string "94085"), ("Country", .string "US")]

/-- The document `SampleJSON` of the tests, from RFC 7159. -/
def SampleJSON : JSON := .array [sanFrancisco, sunnyvale]

/-- The truncated input that opens an object, gives the key `a` and ends: the
read of the value reports `EOF`. -/
def truncatedKey : List Cell := cells [.Delim '\x7b', .string "a"]

/-- The object with the member `a.b: 1` and the member `a` that holds `b: 2`. -/
def dottedKey : JSON :=
  .object [("a.b", .number "1"), ("a", .object [("b", .number "2")])]

/-- Whether a visitor call is an `Exit`. -/
def Event.isExit : Event → Bool
  | .enter _ _ => false
  | .exit _ _ _ => true

/-- The path of a visitor call. -/
def Event.path : Event → String
  | .enter p _ => p
  | .exit p _ _ => p

/-- The paths under which nodes are reported: the paths of the `Enter` calls,
one per node, in order. -/
def enterPaths (evs : List Event) : List String :=
  (evs.filter fun e => !e.isExit).map Event.path

/-- An `Exit` call carries a signature of `h.Size()` bytes. -/
def Event.sized : Event → Prop
  | .enter _ _ => True
  | .exit _ _ sig => sig.length = sha1Size

/-- An `Exit` call for a null or a boolean carries the SHA-1 of `null`, or of
`true` or `false`. -/
def Event.constant : Event → Prop
  | .exit _ .Null sig => sig = sha1 (bytes "null")
  | .exit _ .Boolean sig => sig = sha1 (bytes "true") ∨ sig = sha1 (bytes "false")
  | _ => True

/-- The number that the decimal digits `ds` stand for, after the digits that
gave `acc`. -/
def decimalValue (ds : List Char) (acc : Nat) : Nat :=
  ds.foldl (fun a c => 10 * a + (c.toNat - 48)) acc

/-- Two decoders give the same answers from states related by `R`: the same
token or error and the same `More`, and the states they move to are related
again. -/
def Alike (D1 : Decoder σ) (D2 : Decoder τ) (R : σ → τ → Prop) : Prop :=
  ∀ a b, R a b →
    ((D1.token a).1 = (D2.token b).1 ∧ R (D1.token a).2 (D2.token b).2) ∧
    ((D1.more a).1 = (D2.more b).1 ∧ R (D1.more a).2 (D2.more b).2)

/-- Two recursers that differ in the state of their decoders only, and these
are related by `R`. -/
def Twin (R : σ → τ → Prop) (r1 : recurser σ ν) (r2 : recurser τ ν) : Prop :=
  R r1.dec r2.dec ∧ r1.visitor = r2.visitor ∧ r1.hasher = r2.hasher ∧
    r1.sigpool = r2.sigpool ∧ r1.trueSig = r2.trueSig ∧ r1.falseSig = r2.falseSig ∧
    r1.nullSig = r2.nullSig

/-- Two calls end the same way, with the same signature and error, in twin
recursers. -/
def Outcome.twin (R : σ → τ → Prop) :
    Outcome (Bytes × Option GoError × recurser σ ν) (recurser σ ν) →
    Outcome (Bytes × Option GoError × recurser τ ν) (recurser τ ν) → Prop
  | .returned (s1, e1, r1), .returned (s2, e2, r2) => s1 = s2 ∧ e1 = e2 ∧ Twin R r1 r2
  | .panicked r1, .panicked r2 => Twin R r1 r2
  | .outOfFuel r1, .outOfFuel r2 => Twin R r1 r2
  | _, _ => False

/-- An `Exit` call carries a signature of `h.Size()` bytes, or the nil
signature. -/
def Event.sizedOrNil : Event → Prop
  | .enter _ _ => True
  | .exit _ _ sig => sig.length = sha1Size ∨ sig = []

/-- From `r` to `r'` the recorded calls are extended, and every new `Exit`
carries a signature of `h.Size()` bytes or the nil signature. -/
def Grown (r r' : recurser σ (List Event)) : Prop :=
  ∃ evs, r'.visitor = r.visitor ++ evs ∧ ∀ e ∈ evs, e.sizedOrNil

/-- The truncated input that opens an array, opens an object in it, gives the
key `zzz` and ends: the read of the value reports `EOF`. -/
def truncatedNested : List Cell := cells [.Delim '[', .Delim '\x7b', .string "zzz"]

/-- What a run of a traversal function from `r` to `r'` keeps: the recurser
stays ready, the recorded calls are extended, every new `Exit` for a null or a
boolean carries its constant, and, when no error is returned, every new `Exit`
carries a signature of `h.Size()` bytes. -/
def Checked (r r' : recurser σ (List Event)) (err : Option GoError) : Prop :=
  Ready r' ∧ ∃ evs, r'.visitor = r.visitor ++ evs ∧
    (∀ e ∈ evs, e.constant) ∧ (err = none → ∀ e ∈ evs, e.sized)

/-- A segment of visitor calls that leaves the stack of entered nodes as it
found it, and passes the check whenever what follows does. -/
def Balanced (evs : List Event) : Prop :=
  ∀ stack rest, nested stack (evs ++ rest) = nested stack rest

/-! ## The scripted decoder on token streams -/

theorem more_cells (t : JToken) (rest : List Cell) :
    scriptDecoder.more (cellOf t :: rest) = (!t.closes, cellOf t :: rest) := rfl

theorem token_cells (t : JToken) (rest : List Cell) :
    scriptDecoder.token (cellOf t :: rest) = (.ok t, rest) := rfl

theorem cells_cons (t : JToken) (ts : List JToken) :
    cells (t :: ts) = cellOf t :: cells ts := rfl

theorem cells_nil : cells [] = [] := rfl

theorem cells_append (ts us : List JToken) : cells (ts ++ us) = cells ts ++ cells us := by
  simp [cells]

/-- Every value starts with a token that is not a closing delimiter. -/
theorem tokens_head (v : JSON) : ∃ t ts, v.tokens = t :: ts ∧ t.closes = false := by
  cases v <;> simp [JSON.tokens, JToken.closes]

theorem replay_append (V : Visitor ν) (a b : List Event) (s : ν) :
    replay V (a ++ b) s = replay V b (replay V a s) := by
  simp [replay]

/-- The traversal of a well-formed token stream: the signature is the digest
of the value, the visitor receives the calls of the walk, the stream is
consumed up to the end of the value. -/
theorem walk (V : Visitor ν) (n : Nat) :
    (∀ (v : JSON) (t : JToken) (ts : List JToken) (path : String)
        (r : recurser (List Cell) ν) (rest : List Cell),
      Ready r → v.fuel ≤ n → v.tokens = t :: ts → r.dec = cells ts ++ rest →
      ∃ r', recurseToken scriptDecoder V n path t r = .returned (v.digest, none, r') ∧
        r'.dec = rest ∧ r'.visitor = replay V (v.events path) r.visitor ∧ Ready r') ∧
    (∀ (vs : List JSON) (path : String) (r : recurser (List Cell) ν) (rest : List Cell),
      Ready r → elemFuel vs + 2 ≤ n →
      r.dec = cells (elemTokens vs ++ [.Delim ']']) ++ rest →
      ∃ r', recurseArray scriptDecoder V n path r
          = .returned (sha1 (elemDigests vs), none, r') ∧
        r'.dec = rest ∧ r'.visitor = replay V (elemEvents path 0 vs) r.visitor ∧ Ready r') ∧
    (∀ (vs : List JSON) (path : String) (idx : Int) (hh : Bytes)
        (r : recurser (List Cell) ν) (rest : List Cell),
      Ready r → elemFuel vs + 1 ≤ n →
      r.dec = cells (elemTokens vs ++ [.Delim ']']) ++ rest →
      ∃ r', arrayLoop scriptDecoder V n path idx hh r
          = .returned (sha1 (hh ++ elemDigests vs), none, r') ∧
        r'.dec = rest ∧ r'.visitor = replay V (elemEvents path idx vs) r.visitor ∧ Ready r') ∧
    (∀ (ms : List (String × JSON)) (path : String) (r : recurser (List Cell) ν)
        (rest : List Cell),
      Ready r → memberFuel ms + 2 ≤ n →
      r.dec = cells (memberTokens ms ++ [.Delim '\x7d']) ++ rest →
      ∃ r', recurseObject scriptDecoder V n path r
          = .returned (memberDigest zeroSig ms, none, r') ∧
        r'.dec = rest ∧ r'.visitor = replay V (memberEvents path ms) r.visitor ∧ Ready r') ∧
    (∀ (ms : List (String × JSON)) (path : String) (sig : Bytes)
        (r : recurser (List Cell) ν) (rest : List Cell),
      Ready r → memberFuel ms + 1 ≤ n →
      r.dec = cells (memberTokens ms ++ [.Delim '\x7d']) ++ rest →
      ∃ r', objectLoop scriptDecoder V n path sig r
          = .returned (memberDigest sig ms, none, r') ∧
        r'.dec = rest ∧ r'.visitor = replay V (memberEvents path ms) r.visitor ∧ Ready r') := by
  induction n with
  | zero =>
    refine ⟨?_, ?_, ?_, ?_, ?_⟩
    · intro v t ts path r rest _ hf
      cases v <;> simp [JSON.fuel] at hf
    all_goals intros; omega
  | succ n ih =>
    obtain ⟨ihT, ihA, ihAL, ihO, ihOL⟩ := ih
    refine ⟨?_, ?_, ?_, ?_, ?_⟩
    · intro v t ts path r rest hR hf ht hd
      cases v with
      | null =>
        simp [JSON.tokens] at ht
        obtain ⟨rfl, rfl⟩ := ht
        refine ⟨visitScalar V path .Null r.nullSig r, ?_, ?_, ?_, hR⟩
        · simp [recurseToken, JSON.digest, hR.2.2.1]
        · simpa [visitScalar, cells] using hd
        · simp [visitScalar, JSON.events, replay, Event.deliver, hR.2.2.1]
      | bool b =>
        simp [JSON.tokens] at ht
        obtain ⟨rfl, rfl⟩ := ht
        refine ⟨visitScalar V path .Boolean (if b then r.trueSig else r.falseSig) r,
          ?_, ?_, ?_, hR⟩
        · simp [recurseToken, JSON.digest, hR.1, hR.2.1]
        · simpa [visitScalar, cells] using hd
        · simp [visitScalar, JSON.events, replay, Event.deliver, hR.1, hR.2.1]
      | number lit =>
        simp [JSON.tokens] at ht
        obtain ⟨rfl, rfl⟩ := ht
        refine ⟨visitScalar V path .Number (sha1 (bytes lit))
          { r with hasher := [] ++ bytes lit }, ?_, ?_, ?_, hR⟩
        · simp [recurseToken, JSON.digest]
        · simpa [visitScalar, cells] using hd
        · simp [visitScalar, JSON.events, replay, Event.deliver]
      | string s =>
        simp [JSON.tokens] at ht
        obtain ⟨rfl, rfl⟩ := ht
        refine ⟨visitScalar V path .String (sha1 (bytes ("\"" ++ s ++ "\"")))
          { r with hasher := [] ++ bytes ("\"" ++ s ++ "\"") }, ?_, ?_, ?_, hR⟩
        · simp [recurseToken, JSON.digest]
        · simpa [visitScalar, cells] using hd
        · simp [visitScalar, JSON.events, replay, Event.deliver]
      | array elems =>
        simp [JSON.tokens] at ht
        obtain ⟨rfl, rfl⟩ := ht
        simp only [JSON.fuel] at hf
        obtain ⟨r2, h2, hd2, hv2, hR2⟩ := ihA elems path
          { r with visitor := V.Enter path Token.Array r.visitor } rest hR (by omega) hd
        refine ⟨{ r2 with
          visitor := V.Exit path Token.Array (sha1 (elemDigests elems)) r2.visitor },
          ?_, hd2, ?_, hR2⟩
        · simp [recurseToken, h2, JSON.digest]
        · simp [hv2, JSON.events, replay, Event.deliver]
      | object members =>
        simp [JSON.tokens] at ht
        obtain ⟨rfl, rfl⟩ := ht
        simp only [JSON.fuel] at hf
        obtain ⟨r2, h2, hd2, hv2, hR2⟩ := ihO members path
          { r with visitor := V.Enter path Token.Object r.visitor } rest hR (by omega) hd
        refine ⟨{ r2 with
          visitor := V.Exit path Token.Object (memberDigest zeroSig members) r2.visitor },
          ?_, hd2, ?_, hR2⟩
        · simp [recurseToken, h2, JSON.digest]
        · simp [hv2, JSON.events, replay, Event.deliver]
    · intro vs path r rest hR hf hd
      obtain ⟨r2, h2, hd2, hv2, hR2⟩ := ihAL vs path 0 [] r rest hR (by omega) hd
      exact ⟨r2, by simpa [recurseArray] using h2, hd2, hv2, hR2⟩
    · intro vs path idx hh r rest hR hf hd
      cases vs with
      | nil =>
        simp only [elemTokens, List.nil_append, cells_cons, cells_nil] at hd
        refine ⟨{ r with dec := rest }, ?_, rfl, ?_, hR⟩
        · simp [arrayLoop, hd, more_cells, token_cells, JToken.closes, elemDigests]
        · simp [elemEvents, replay]
      | cons v vs =>
        obtain ⟨t, ts, ht, hc⟩ := tokens_head v
        simp only [elemTokens, elemFuel] at hd hf
        have hd1 : r.dec
            = cellOf t :: (cells ts ++ (cells (elemTokens vs ++ [.Delim ']']) ++ rest)) := by
          rw [hd, ht]; simp [cells]
        obtain ⟨r2, h2, hd2, hv2, hR2⟩ := ihT v t ts (elemPath path idx)
          { r with dec := cells ts ++ (cells (elemTokens vs ++ [.Delim ']']) ++ rest) }
          (cells (elemTokens vs ++ [.Delim ']']) ++ rest) hR (by omega) ht rfl
        obtain ⟨r3, h3, hd3, hv3, hR3⟩ := ihAL vs path (incInt64 idx) (hh ++ v.digest)
          r2 rest hR2 (by omega) hd2
        refine ⟨r3, ?_, hd3, ?_, hR3⟩
        · simp only [elemPath] at h2
          simp [arrayLoop, hd1, more_cells, token_cells, hc, h2, h3, elemDigests]
        · simp [hv3, hv2, elemEvents, replay_append]
    · intro ms path r rest hR hf hd
      have hR1 : Ready (sigpoolGet r).2 := by
        unfold sigpoolGet
        split
        · exact hR
        · rename_i b pool hp
          refine ⟨hR.1, hR.2.1, hR.2.2.1, fun x hx => hR.2.2.2 x ?_⟩
          rw [hp]; exact List.mem_cons_of_mem _ hx
      have hz : (sigpoolGet r).1.map (fun _ => 0) = zeroSig := by
        unfold sigpoolGet
        split
        · simp [zeroSig]
        · rename_i b pool hp
          have := hR.2.2.2 b (by rw [hp]; exact List.mem_cons_self _ _)
          simp [zeroSig, ← this, List.map_const']
      have hd1 : (sigpoolGet r).2.dec = r.dec := by
        unfold sigpoolGet; split <;> rfl
      have hv1 : (sigpoolGet r).2.visitor = r.visitor := by
        unfold sigpoolGet; split <;> rfl
      obtain ⟨r2, h2, hd2, hv2, hR2⟩ := ihOL ms path zeroSig (sigpoolGet r).2 rest hR1
        (by omega) (hd1.trans hd)
      exact ⟨r2, by simpa [recurseObject, hz] using h2, hd2, hv2.trans (by rw [hv1]), hR2⟩
    · intro ms path sig r rest hR hf hd
      cases ms with
      | nil =>
        simp only [memberTokens, List.nil_append, cells_cons, cells_nil] at hd
        refine ⟨{ r with dec := rest }, ?_, rfl, ?_, hR⟩
        · simp [objectLoop, hd, more_cells, token_cells, JToken.closes, memberDigest]
        · simp [memberEvents, replay]
      | cons m ms =>
        obtain ⟨k, v⟩ := m
        obtain ⟨t, ts, ht, hc⟩ := tokens_head v
        simp only [memberTokens, memberFuel] at hd hf
        have hd1 : r.dec = cellOf (.string k) ::
            cellOf t :: (cells ts ++ (cells (memberTokens ms ++ [.Delim '\x7d']) ++ rest)) := by
          rw [hd, ht]; simp [cells]
        obtain ⟨r2, h2, hd2, hv2, hR2⟩ := ihT v t ts (memberPath path k)
          { r with dec := cells ts ++ (cells (memberTokens ms ++ [.Delim '\x7d']) ++ rest) }
          (cells (memberTokens ms ++ [.Delim '\x7d']) ++ rest) hR (by omega) ht rfl
        obtain ⟨r3, h3, hd3, hv3, hR3⟩ := ihOL ms path
          (xorInto sig (sha1 (bytes k ++ v.digest)))
          { r2 with hasher := bytes k ++ v.digest } rest hR2 (by omega) hd2
        refine ⟨r3, ?_, hd3, ?_, hR3⟩
        · simp only [memberPath] at h2
          simp [objectLoop, hd1, more_cells, token_cells, JToken.closes, h2, h3, memberDigest]
        · simp [hv3, hv2, memberEvents, replay_append]


/-! ## Whole documents -/

theorem ready_precompute (dec : σ) (vis : ν) : Ready (precompute (newRecurser dec vis)) := by
  simp [Ready, precompute, newRecurser]

/-- On the script of a document, `Recurse` returns without error once the fuel
suffices, and the visitor has received the calls of the walk. -/
theorem Recurse_doc (V : Visitor ν) (v : JSON) (fuel : Nat) (s0 : ν) (hf : v.fuel ≤ fuel) :
    Recurse scriptDecoder V fuel v.doc s0 = .returned (none, replay V (v.events ".") s0) := by
  obtain ⟨t, ts, ht, -⟩ := tokens_head v
  obtain ⟨r', h, -, hv, -⟩ := (walk V fuel).1 v t ts "."
    { precompute (newRecurser v.doc s0) with dec := cells ts } [] (ready_precompute _ _)
    hf ht (by simp)
  have hdoc : v.doc = cellOf t :: cells ts := by simp [JSON.doc, ht, cells]
  simp only [Recurse, recurse]
  have e1 : (precompute (newRecurser v.doc s0)).dec = cellOf t :: cells ts := by
    simp [precompute, newRecurser, hdoc]
  rw [e1, token_cells]
  simp only [h]
  rw [hv]
  simp [precompute, newRecurser]

/-- The walk of a value ends with the `Exit` of the value itself. -/
theorem events_last (path : String) (v : JSON) :
    ∃ evs, v.events path = evs ++ [.exit path v.kind v.digest] := by
  cases v with
  | null => exact ⟨[_], rfl⟩
  | bool b => exact ⟨[_], rfl⟩
  | number lit => exact ⟨[_], rfl⟩
  | string s => exact ⟨[_], rfl⟩
  | array elems =>
    exact ⟨.enter path .Array :: elemEvents path 0 elems,
      by simp [JSON.events, JSON.kind, JSON.digest]⟩
  | object members =>
    exact ⟨.enter path .Object :: memberEvents path members,
      by simp [JSON.events, JSON.kind, JSON.digest]⟩

/-- The visitor of `Equal` ends up holding the digest of the root. -/
theorem replay_rootSig (v : JSON) (s0 : Bytes) :
    replay rootSigVisitor (v.events ".") s0 = v.digest := by
  obtain ⟨evs, h⟩ := events_last "." v
  rw [h, replay_append]
  simp [replay, Event.deliver, rootSigVisitor, CustomVisitor.toVisitor, CustomVisitor.Exit]

theorem replay_trace (evs log : List Event) : replay traceVisitor evs log = log ++ evs := by
  induction evs generalizing log with
  | nil => simp [replay]
  | cons e evs ih =>
    have : replay traceVisitor (e :: evs) log
        = replay traceVisitor evs (Event.deliver traceVisitor log e) := rfl
    rw [this, ih]
    cases e <;> simp [Event.deliver, traceVisitor]

/-- The root digest `Recurse` reports for a document is the digest of its value. -/
theorem Recurse_rootSig (v : JSON) (fuel : Nat) (hf : v.fuel ≤ fuel) :
    Recurse scriptDecoder rootSigVisitor fuel v.doc [] = .returned (none, v.digest) := by
  rw [Recurse_doc rootSigVisitor v fuel [] hf, replay_rootSig]

/-- On two documents `Equal` compares the digests of the two values. -/
theorem Equal_doc (v w : JSON) (fuel : Nat) (hv : v.fuel ≤ fuel) (hw : w.fuel ≤ fuel) :
    Equal scriptDecoder scriptDecoder fuel v.doc w.doc
      = .returned (decide (v.digest = w.digest), none) := by
  simp [Equal, Recurse_rootSig v fuel hv, Recurse_rootSig w fuel hw]

/-! ## XOR accumulation -/

theorem xorInto_comm (a x y : Bytes) :
    xorInto (xorInto a x) y = xorInto (xorInto a y) x := by
  induction a generalizing x y with
  | nil => cases x <;> cases y <;> simp [xorInto]
  | cons s a ih =>
    cases x with
    | nil => cases y <;> simp [xorInto]
    | cons u x =>
      cases y with
      | nil => simp [xorInto]
      | cons w y =>
        simp only [xorInto, ih x y, List.cons.injEq, and_true]
        rw [Nat.xor_assoc, Nat.xor_comm u w, ← Nat.xor_assoc]

/-- The member digest does not depend on the order of the members. -/
theorem memberDigest_perm {ms ns : List (String × JSON)} (h : ms.Perm ns) (acc : Bytes) :
    memberDigest acc ms = memberDigest acc ns := by
  induction h generalizing acc with
  | nil => rfl
  | cons m _ ih => obtain ⟨k, v⟩ := m; simp [memberDigest, ih]
  | swap m n l =>
    obtain ⟨k, v⟩ := m
    obtain ⟨j, w⟩ := n
    simp [memberDigest, xorInto_comm]
  | trans _ _ ih1 ih2 => rw [ih1, ih2]

theorem sha1_length (m : Bytes) : (sha1 m).length = 20 := by
  simp [sha1, be32]

theorem xorInto_length (a x : Bytes) : (xorInto a x).length = a.length := by
  induction a generalizing x with
  | nil => cases x <;> simp [xorInto]
  | cons s a ih => cases x <;> simp [xorInto, ih]

theorem xorInto_eq_zipWith (a x : Bytes) (h : a.length = x.length) :
    xorInto a x = List.zipWith (· ^^^ ·) a x := by
  induction a generalizing x with
  | nil => cases x <;> simp [xorInto]
  | cons s a ih =>
    cases x with
    | nil => simp at h
    | cons u x => simp [xorInto, ih x (by simpa using h)]

/-- The member digest as a left fold of byte-wise XOR over the pair hashes. -/
theorem memberDigest_eq_foldl (ms : List (String × JSON)) (acc : Bytes)
    (h : acc.length = 20) :
    memberDigest acc ms = ms.foldl
      (fun sig m => List.zipWith (· ^^^ ·) sig (sha1 (bytes m.1 ++ m.2.digest))) acc := by
  induction ms generalizing acc with
  | nil => rfl
  | cons m ms ih =>
    obtain ⟨k, v⟩ := m
    have e : xorInto acc (sha1 (bytes k ++ v.digest))
        = List.zipWith (· ^^^ ·) acc (sha1 (bytes k ++ v.digest)) :=
      xorInto_eq_zipWith _ _ (by rw [h, sha1_length])
    simp only [memberDigest, List.foldl_cons]
    rw [e, ih]
    simp [h, sha1_length]


/-- Folding the same bytes in twice restores the buffer. -/
theorem xorInto_cancel (a x : Bytes) : xorInto (xorInto a x) x = a := by
  induction a generalizing x with
  | nil => cases x <;> simp [xorInto]
  | cons s a ih =>
    cases x with
    | nil => simp [xorInto]
    | cons u x => simp [xorInto, ih x, Nat.xor_assoc]

theorem memberDigest_length (acc : Bytes) (ms : List (String × JSON)) :
    (memberDigest acc ms).length = acc.length := by
  induction ms generalizing acc with
  | nil => rfl
  | cons m ms ih => obtain ⟨k, v⟩ := m; simp [memberDigest, ih, xorInto_length]

/-- The digest of every value has the size of a SHA-1 sum. -/
theorem digest_length (v : JSON) : v.digest.length = 20 := by
  cases v with
  | bool b => cases b <;> simp [JSON.digest, sha1_length]
  | object members => simp [JSON.digest, memberDigest_length, zeroSig, sha1Size]
  | _ => simp [JSON.digest, sha1_length]

/-! ## Structural identity -/

theorem memberNodes_perm {ms ns : List (String × JSON)} (h : ms.Perm ns) :
    memberNodes ms = memberNodes ns := by
  induction h with
  | nil => rfl
  | cons m _ ih => obtain ⟨k, v⟩ := m; simp [memberNodes, ih]
  | swap m n l =>
    obtain ⟨k, v⟩ := m
    obtain ⟨j, w⟩ := n
    simp only [memberNodes]; omega
  | trans _ _ ih1 ih2 => rw [ih1, ih2]

/-- Structurally identical documents have the same kind, the same digest, the
same number of values, and, for arrays, elements with the same numbers of
values at the same positions. -/
theorem same_core {a b : JSON} (h : Same a b) :
    a.kind = b.kind ∧ a.digest = b.digest ∧ a.nodes = b.nodes ∧
    (∀ xs ys, a = .array xs → b = .array ys →
      elemDigests xs = elemDigests ys ∧ xs.map JSON.nodes = ys.map JSON.nodes) ∧
    (∀ ms ns, a = .object ms → b = .object ns →
      ∀ acc, memberDigest acc ms = memberDigest acc ns) := by
  induction h with
  | null => simp
  | bool b => simp
  | number lit => simp
  | string s => simp
  | arrayNil => simp
  | @arrayCons v w vs ws _ _ ih1 ih2 =>
    obtain ⟨e1, e2⟩ := ih2.2.2.2.1 vs ws rfl rfl
    have en : elemNodes vs = elemNodes ws := by
      have := ih2.2.2.1
      simpa [JSON.nodes] using this
    refine ⟨rfl, ?_, ?_, ?_, ?_⟩
    · simp [JSON.digest, elemDigests, ih1.2.1, e1]
    · simp [JSON.nodes, elemNodes, ih1.2.2.1, en]
    · intro xs ys hx hy
      cases hx; cases hy
      simp [elemDigests, ih1.2.1, e1, ih1.2.2.1, e2]
    · intro ms ns hx; cases hx
  | objectNil => simp
  | @objectCons v w ms ns k _ _ ih1 ih2 =>
    have e := ih2.2.2.2.2 ms ns rfl rfl
    have en : memberNodes ms = memberNodes ns := by
      have := ih2.2.2.1
      simpa [JSON.nodes] using this
    refine ⟨rfl, ?_, ?_, ?_, ?_⟩
    · simp [JSON.digest, memberDigest, ih1.2.1, e]
    · simp [JSON.nodes, memberNodes, ih1.2.2.1, en]
    · intro xs ys hx; cases hx
    · intro ms' ns' hx hy acc
      cases hx; cases hy
      simp [memberDigest, ih1.2.1, e]
  | @objectPerm ms ns hp =>
    refine ⟨rfl, ?_, ?_, ?_, ?_⟩
    · simp [JSON.digest, memberDigest_perm hp]
    · simp [JSON.nodes, memberNodes_perm hp]
    · intro xs ys hx; cases hx
    · intro ms' ns' hx hy acc
      cases hx; cases hy
      exact memberDigest_perm hp acc
  | @trans u v w _ _ ih1 ih2 =>
    refine ⟨ih1.1.trans ih2.1, ih1.2.1.trans ih2.2.1, ih1.2.2.1.trans ih2.2.2.1, ?_, ?_⟩
    · intro xs zs hx hz
      subst hx; subst hz
      cases v with
      | array ys =>
        obtain ⟨a1, a2⟩ := ih1.2.2.2.1 xs ys rfl rfl
        obtain ⟨b1, b2⟩ := ih2.2.2.2.1 ys zs rfl rfl
        exact ⟨a1.trans b1, a2.trans b2⟩
      | _ => simp [JSON.kind] at ih1
    · intro ms ps hx hz acc
      subst hx; subst hz
      cases v with
      | object ns =>
        exact (ih1.2.2.2.2 ms ns rfl rfl acc).trans (ih2.2.2.2.2 ns ps rfl rfl acc)
      | _ => simp [JSON.kind] at ih1

/-! ## The claims -/

set_option maxRecDepth 100000

/-- C1. Object order invariance: when the key/value pairs of an object are
permuted, `recurseObject` returns the same signature on both member streams
(at any path, from any ready recurser), `Recurse` reports the same root digest
for the two objects, and `Equal` returns true. -/
theorem object_order_invariance (ms ns : List (String × JSON)) (hp : ms.Perm ns)
    (V : Visitor ν) (path : String) (r1 r2 : recurser (List Cell) ν)
    (rest1 rest2 : List Cell) (fuel : Nat) (hR1 : Ready r1) (hR2 : Ready r2)
    (hd1 : r1.dec = cells (memberTokens ms ++ [.Delim '\x7d']) ++ rest1)
    (hd2 : r2.dec = cells (memberTokens ns ++ [.Delim '\x7d']) ++ rest2)
    (hf1 : (JSON.object ms).fuel ≤ fuel) (hf2 : (JSON.object ns).fuel ≤ fuel) :
    (∃ sig r1' r2',
      recurseObject scriptDecoder V fuel path r1 = .returned (sig, none, r1') ∧
      recurseObject scriptDecoder V fuel path r2 = .returned (sig, none, r2')) ∧
    (∃ sig,
      Recurse scriptDecoder rootSigVisitor fuel (JSON.object ms).doc [] = .returned (none, sig) ∧
      Recurse scriptDecoder rootSigVisitor fuel (JSON.object ns).doc [] = .returned (none, sig)) ∧
    Equal scriptDecoder scriptDecoder fuel (JSON.object ms).doc (JSON.object ns).doc
      = .returned (true, none) := by
  have hd : (JSON.object ms).digest = (JSON.object ns).digest := by
    simp [JSON.digest, memberDigest_perm hp]
  simp only [JSON.fuel] at hf1 hf2
  refine ⟨?_, ?_, ?_⟩
  · obtain ⟨a, ha, -⟩ := (walk V fuel).2.2.2.1 ms path r1 rest1 hR1 (by omega) hd1
    obtain ⟨b, hb, -⟩ := (walk V fuel).2.2.2.1 ns path r2 rest2 hR2 (by omega) hd2
    exact ⟨_, a, b, ha, by rw [hb, memberDigest_perm hp]⟩
  · exact ⟨_, Recurse_rootSig _ fuel (by simp only [JSON.fuel]; omega),
      by rw [hd]; exact Recurse_rootSig _ fuel (by simp only [JSON.fuel]; omega)⟩
  · rw [Equal_doc _ _ fuel (by simp only [JSON.fuel]; omega) (by simp only [JSON.fuel]; omega)]
    simp [hd]

/-- The test case of C1: the objects with `Planet` first and with `Index` first. -/
theorem object_order_invariance_witness :
    List.Perm [("Planet", JSON.string "Earth"), ("Index", JSON.number "3")]
      [("Index", JSON.number "3"), ("Planet", JSON.string "Earth")] ∧
    Equal scriptDecoder scriptDecoder 7 planetFirst.doc indexFirst.doc
      = .returned (true, none) :=
  ⟨List.Perm.swap _ _ _, (object_order_invariance
    [("Planet", .string "Earth"), ("Index", .number "3")]
    [("Index", .number "3"), ("Planet", .string "Earth")]
    (List.Perm.swap _ _ _) traceVisitor "."
    (precompute (newRecurser
      (cells (memberTokens [("Planet", .string "Earth"), ("Index", .number "3")]
        ++ [.Delim '\x7d'])) []))
    (precompute (newRecurser
      (cells (memberTokens [("Index", .number "3"), ("Planet", .string "Earth")]
        ++ [.Delim '\x7d'])) []))
    [] [] 7 (ready_precompute _ _) (ready_precompute _ _) (by simp [precompute, newRecurser])
    (by simp [precompute, newRecurser]) (by decide) (by decide)).2.2⟩

/-- C2, counterexample. The object holding `a: 1` twice and the object without
members get the same root digest, the all-zero one, and are not structurally
identical. -/
theorem digest_iff_same_counterexample :
    Recurse scriptDecoder rootSigVisitor 7 twiceA.doc [] = .returned (none, zeroSig) ∧
    Recurse scriptDecoder rootSigVisitor 5 noMembers.doc [] = .returned (none, zeroSig) ∧
    ¬ Same twiceA noMembers := by
  refine ⟨?_, ?_, ?_⟩
  · rw [Recurse_rootSig twiceA 7 (by decide)]
    simp only [twiceA, JSON.digest, memberDigest, xorInto_cancel]
  · rw [Recurse_rootSig noMembers 5 (by decide)]
    rfl
  · intro h
    have := (same_core h).2.2.1
    simp [twiceA, noMembers, JSON.nodes, memberNodes] at this

/-- C2, amended. Structurally identical documents get the same root digest:
`Recurse` reports the same digest for both, and `Equal` returns true. -/
theorem same_digest (v w : JSON) (h : Same v w) (fuel : Nat)
    (hv : v.fuel ≤ fuel) (hw : w.fuel ≤ fuel) :
    (∃ sig, Recurse scriptDecoder rootSigVisitor fuel v.doc [] = .returned (none, sig) ∧
      Recurse scriptDecoder rootSigVisitor fuel w.doc [] = .returned (none, sig)) ∧
    Equal scriptDecoder scriptDecoder fuel v.doc w.doc = .returned (true, none) := by
  have hd := (same_core h).2.1
  refine ⟨⟨_, Recurse_rootSig v fuel hv, by rw [hd]; exact Recurse_rootSig w fuel hw⟩, ?_⟩
  rw [Equal_doc v w fuel hv hw]
  simp [hd]

/-- The amended C2 on the two one-element arrays that hold the `Planet`/`Index`
object in its two orders. -/
theorem same_digest_witness :
    Same (.array [planetFirst]) (.array [indexFirst]) ∧
    Equal scriptDecoder scriptDecoder 11 (JSON.array [planetFirst]).doc
      (JSON.array [indexFirst]).doc = .returned (true, none) :=
  ⟨Same.arrayCons (Same.objectPerm (List.Perm.swap _ _ _)) Same.arrayNil,
   (same_digest (.array [planetFirst]) (.array [indexFirst])
    (Same.arrayCons (Same.objectPerm (List.Perm.swap _ _ _)) Same.arrayNil) 11
    (by decide) (by decide)).2⟩

/-- C3, at the input `[1,]`. The read of the second element reports a syntax
error; `recurseArray` drops it, takes the nil token for a JSON null, reports a
`Null` node under `.[1]`, and `Recurse` returns a nil error. -/
theorem element_read_error_dropped :
    (scriptDecoder.token (trailingComma.drop 2)).1 = .error .SyntaxError ∧
    Recurse scriptDecoder traceVisitor 5 trailingComma [] = .returned (none,
      [.enter "." .Array,
       .enter ".[0]" .Number, .exit ".[0]" .Number (sha1 (bytes "1")),
       .enter ".[1]" .Null, .exit ".[1]" .Null (sha1 (bytes "null")),
       .exit "." .Array (sha1 (sha1 (bytes "1") ++ sha1 (bytes "null")))]) :=
  ⟨rfl, by decide⟩

/-- C4, at the truncated inputs. The array that is opened, holds `1` and is
never closed is traversed without error and gets the digest of `[1]`; the
object that is opened, holds `a: 1` and is never closed is traversed without
error as well, and gets a digest. -/
theorem truncated_input_accepted :
    Recurse scriptDecoder traceVisitor 4 truncatedArray [] = .returned (none,
      [.enter "." .Array,
       .enter ".[0]" .Number, .exit ".[0]" .Number (sha1 (bytes "1")),
       .exit "." .Array (JSON.array [.number "1"]).digest]) ∧
    Recurse scriptDecoder traceVisitor 4 truncatedObject [] = .returned (none,
      [.enter "." .Object,
       .enter ".a" .Number, .exit ".a" .Number (sha1 (bytes "1")),
       .exit "." .Object (JSON.object [("a", .number "1")]).digest]) := by
  decide

/-- C5, at two empty streams. Both traversals fail with `EOF` at the root
read, nothing is captured, and `Equal` returns true with a nil error: the
failure is not reported, and the caller is told that the inputs are equal. -/
theorem equal_empty_streams :
    Recurse scriptDecoder rootSigVisitor 4 emptyStream [] = .returned (some .EOF, []) ∧
    Equal scriptDecoder scriptDecoder 4 emptyStream emptyStream = .returned (true, none) := by
  decide

/-- The extent of the defect in `Equal`: whenever it returns, its error is
nil, so no failure of a traversal is ever reported. When the root read fails
on both inputs, it returns true; when one input is a well-formed document and
the other is the empty stream, it returns false, as it does for two documents
that differ. -/
theorem equal_error_always_nil (D1 : Decoder σ) (D2 : Decoder τ) (fuel : Nat) (a : σ) (b : τ) :
    (∀ res, Equal D1 D2 fuel a b = .returned res → res.2 = none) ∧
    (∀ e1 e2, (D1.token a).1 = .error e1 → (D2.token b).1 = .error e2 →
      Equal D1 D2 fuel a b = .returned (true, none)) ∧
    (∀ v : JSON, v.fuel ≤ fuel →
      Equal scriptDecoder scriptDecoder fuel v.doc emptyStream = .returned (false, none)) := by
  refine ⟨?_, ?_, ?_⟩
  · intro res h
    unfold Equal at h
    split at h
    · split at h
      · cases h; rfl
      · cases h
      · cases h
    · cases h
    · cases h
  · intro e1 e2 h1 h2
    have p1 : (precompute (newRecurser a ([] : Bytes))).dec = a := rfl
    have p2 : (precompute (newRecurser b ([] : Bytes))).dec = b := rfl
    simp [Equal, Recurse, recurse, p1, p2, h1, h2, precompute, newRecurser]
  · intro v hf
    have hl := digest_length v
    have hne : v.digest ≠ [] := by
      intro h0
      rw [h0] at hl
      simp at hl
    have he : Recurse scriptDecoder rootSigVisitor fuel emptyStream []
        = .returned (some .EOF, []) := by
      simp [Recurse, recurse, emptyStream, scriptDecoder, precompute, newRecurser]
    simp [Equal, Recurse_rootSig v fuel hf, he, hne]

/-- The results of `Equal` on two empty streams, and on the document `[1, 2]`
against the empty stream. -/
theorem equal_error_always_nil_witness :
    Equal scriptDecoder scriptDecoder 7 emptyStream emptyStream = .returned (true, none) ∧
    Equal scriptDecoder scriptDecoder 7 oneTwo.doc emptyStream = .returned (false, none) ∧
    (true, (none : Option GoError)).2 = none :=
  ⟨(equal_error_always_nil scriptDecoder scriptDecoder 7 emptyStream emptyStream).2.1
      .EOF .EOF rfl rfl,
   (equal_error_always_nil scriptDecoder scriptDecoder 7 emptyStream emptyStream).2.2
      oneTwo (by decide),
   (equal_error_always_nil scriptDecoder scriptDecoder 7 emptyStream emptyStream).1
      (true, none)
      ((equal_error_always_nil scriptDecoder scriptDecoder 7 emptyStream emptyStream).2.1
        .EOF .EOF rfl rfl)⟩

/-- On two truncated inputs, an object that ends after the key `a` and an
array that ends after the key `zzz` of its first element, both traversals
fail, both roots are exited with the nil signature, and `Equal` returns true
with a nil error for two inputs that have nothing in common. -/
theorem equal_truncated_inputs :
    Recurse scriptDecoder traceVisitor 8 truncatedKey []
      = .returned (some .EOF, [.enter "." .Object, .exit "." .Object []]) ∧
    Recurse scriptDecoder traceVisitor 8 truncatedNested []
      = .returned (some .EOF,
          [.enter "." .Array, .enter ".[0]" .Object, .exit ".[0]" .Object [],
           .exit "." .Array []]) ∧
    Equal scriptDecoder scriptDecoder 8 truncatedKey truncatedNested
      = .returned (true, none) := by
  decide

/-- Whatever `recurseToken` returns for the root, the visitor of `Equal` holds
exactly the returned signature afterwards: the root's `Exit` comes last. -/
theorem rootSig_captured (D : Decoder σ) (fuel : Nat) (r0 : recurser σ Bytes)
    (h0 : r0.visitor = []) (sig : Bytes) (err : Option GoError) (r' : recurser σ Bytes)
    (h : recurse D rootSigVisitor fuel r0 = .returned (sig, err, r')) : r'.visitor = sig := by
  have hx : ∀ (k : Token) (s cur : Bytes), rootSigVisitor.Exit "." k s cur = s := by
    intro k s cur
    simp [rootSigVisitor, CustomVisitor.toVisitor, CustomVisitor.Exit]
  unfold recurse at h
  split at h
  · cases h; exact h0
  · rename_i t ht
    cases fuel with
    | zero => simp [recurseToken] at h
    | succ n =>
      cases t with
      | Delim c =>
        simp only [recurseToken] at h
        split at h
        · split at h
          · cases h; simp [visitScalar, hx]
          · cases h
          · cases h
        · split at h
          · split at h
            · cases h; simp [visitScalar, hx]
            · cases h
            · cases h
          · cases h; exact h0
      | bool b =>
        simp only [recurseToken] at h
        cases h; simp [visitScalar, hx]
      | Number lit =>
        simp only [recurseToken] at h
        cases h; simp [visitScalar, hx]
      | string s =>
        simp only [recurseToken] at h
        cases h; simp [visitScalar, hx]
      | nil =>
        simp only [recurseToken] at h
        cases h; simp [visitScalar, hx]
      | other =>
        simp only [recurseToken] at h
        cases h; exact h0

/-- C6. Whenever both traversals return, in particular when both succeed,
`Equal` returns true exactly when the signature `recurse` returned for the root
of the first input equals, byte for byte, the one it returned for the root of
the second; the signature captured at path `.` is that root signature, whatever
nested nodes were reported under the same path. -/
theorem equal_compares_root_digests (D1 : Decoder σ) (D2 : Decoder τ) (fuel : Nat)
    (a : σ) (b : τ) (sigA sigB : Bytes) (errA errB : Option GoError)
    (hA : ∃ rA, recurse D1 rootSigVisitor fuel (precompute (newRecurser a []))
      = .returned (sigA, errA, rA))
    (hB : ∃ rB, recurse D2 rootSigVisitor fuel (precompute (newRecurser b []))
      = .returned (sigB, errB, rB)) :
    Recurse D1 rootSigVisitor fuel a [] = .returned (errA, sigA) ∧
    Recurse D2 rootSigVisitor fuel b [] = .returned (errB, sigB) ∧
    Equal D1 D2 fuel a b = .returned (decide (sigA = sigB), none) := by
  obtain ⟨rA, hA⟩ := hA
  obtain ⟨rB, hB⟩ := hB
  have cA := rootSig_captured D1 fuel _ rfl sigA errA rA hA
  have cB := rootSig_captured D2 fuel _ rfl sigB errB rB hB
  have eA : Recurse D1 rootSigVisitor fuel a [] = .returned (errA, sigA) := by
    simp [Recurse, hA, cA]
  have eB : Recurse D2 rootSigVisitor fuel b [] = .returned (errB, sigB) := by
    simp [Recurse, hB, cB]
  exact ⟨eA, eB, by simp [Equal, eA, eB]⟩

/-- C6 on the object whose member has the empty key, so that the member is
reported under the path `.` before the root is, against the document `[1, 2]`. -/
theorem equal_compares_root_digests_witness :
    Recurse scriptDecoder traceVisitor 5 emptyKey.doc [] = .returned (none,
      [.enter "." .Object, .enter "." .Number, .exit "." .Number (sha1 (bytes "1")),
       .exit "." .Object emptyKey.digest]) ∧
    Equal scriptDecoder scriptDecoder 5 emptyKey.doc oneTwo.doc
      = .returned (decide (emptyKey.digest = oneTwo.digest), none) :=
  ⟨by decide,
   (equal_compares_root_digests scriptDecoder scriptDecoder 5 emptyKey.doc oneTwo.doc
    emptyKey.digest oneTwo.digest none none ⟨_, rfl⟩ ⟨_, rfl⟩).2.2⟩

theorem elemDigests_eq_flatten (xs : List JSON) :
    elemDigests xs = (xs.map JSON.digest).flatten := by
  induction xs with
  | nil => rfl
  | cons v vs ih => simp [elemDigests, ih]

/-- C7, counterexample. Swapping the two elements of the array that holds the
object with `a: 1` twice and the object without members changes the element
sequence into one that is not structurally identical, and leaves the root
digest unchanged: `Equal` returns true. -/
theorem array_permutation_keeps_digest :
    List.Perm [twiceA, noMembers] [noMembers, twiceA] ∧
    ¬ Same (.array [twiceA, noMembers]) (.array [noMembers, twiceA]) ∧
    Recurse scriptDecoder rootSigVisitor 15 (JSON.array [twiceA, noMembers]).doc []
      = Recurse scriptDecoder rootSigVisitor 15 (JSON.array [noMembers, twiceA]).doc [] ∧
    Equal scriptDecoder scriptDecoder 15 (JSON.array [twiceA, noMembers]).doc
      (JSON.array [noMembers, twiceA]).doc = .returned (true, none) := by
  refine ⟨List.Perm.swap _ _ _, ?_, by decide!, by decide!⟩
  intro h
  have := ((same_core h).2.2.2.1 _ _ rfl rfl).2
  simp [twiceA, noMembers, JSON.nodes, memberNodes] at this

/-- C7, amended. The root digest of an array depends on its elements through
the sequence of their digests only: arrays whose elements have the same
digests at the same positions get the same root digest. On the arrays of the
tests, `Equal` on `[1,2,3]` and `[1,3,2]` returns false, and the root digests
of `[1,2]` and `[2,1]` differ. -/
theorem array_order_sensitivity :
    (∀ (xs ys : List JSON) (fuel : Nat), (JSON.array xs).fuel ≤ fuel →
      (JSON.array ys).fuel ≤ fuel → xs.map JSON.digest = ys.map JSON.digest →
      Equal scriptDecoder scriptDecoder fuel (JSON.array xs).doc (JSON.array ys).doc
        = .returned (true, none)) ∧
    Equal scriptDecoder scriptDecoder 8 oneTwoThree.doc oneThreeTwo.doc
      = .returned (false, none) ∧
    Recurse scriptDecoder rootSigVisitor 8 oneTwo.doc []
      ≠ Recurse scriptDecoder rootSigVisitor 8 twoOne.doc [] := by
  refine ⟨?_, by decide!, by decide!⟩
  intro xs ys fuel hx hy h
  rw [Equal_doc _ _ fuel hx hy]
  simp [JSON.digest, elemDigests_eq_flatten, h]

/-- The amended C7 on the two arrays of the counterexample. -/
theorem array_order_sensitivity_witness :
    [twiceA, noMembers].map JSON.digest = [noMembers, twiceA].map JSON.digest ∧
    Equal scriptDecoder scriptDecoder 15 (JSON.array [twiceA, noMembers]).doc
      (JSON.array [noMembers, twiceA]).doc = .returned (true, none) :=
  ⟨by decide!,
   array_order_sensitivity.1 [twiceA, noMembers] [noMembers, twiceA] 15
    (by decide) (by decide) (by decide)⟩

/-- C8. Object digest rule: on the members `(k1,v1)...(kn,vn)` of a well-formed
object, `recurseObject` returns the byte-wise XOR of the `SHA1(bytes ki ++
digest vi)`, folded in encounter order into twenty zero bytes; for no members
this is the twenty zero bytes. The recurser may hold any pool of twenty-byte
buffers: their contents do not show in the result. -/
theorem object_digest_rule (V : Visitor ν) (ms : List (String × JSON)) (path : String)
    (r : recurser (List Cell) ν) (rest : List Cell) (fuel : Nat) (hR : Ready r)
    (hf : memberFuel ms + 2 ≤ fuel)
    (hd : r.dec = cells (memberTokens ms ++ [.Delim '\x7d']) ++ rest) :
    ∃ r', recurseObject scriptDecoder V fuel path r
        = .returned (ms.foldl
            (fun sig m => List.zipWith (· ^^^ ·) sig (sha1 (bytes m.1 ++ m.2.digest)))
            (List.replicate 20 0), none, r') ∧
      r'.dec = rest := by
  obtain ⟨r', h, hd', -⟩ := (walk V fuel).2.2.2.1 ms path r rest hR hf hd
  refine ⟨r', ?_, hd'⟩
  rw [h, memberDigest_eq_foldl ms zeroSig (by simp [zeroSig, sha1Size])]
  rfl

/-- C8 on the `Planet`/`Index` object of the tests, with a used buffer in the
pool: the result is the signature the test expects. -/
theorem object_digest_rule_witness :
    hex ([("Planet", JSON.string "Earth"), ("Index", JSON.number "3")].foldl
      (fun sig m => List.zipWith (· ^^^ ·) sig (sha1 (bytes m.1 ++ m.2.digest)))
      (List.replicate 20 0)) = "a0fc0dbd5dd267db2f72cde45d83f5941f04abac" ∧
    ∃ r', recurseObject scriptDecoder traceVisitor 6 "."
        { precompute (newRecurser (cells (memberTokens
              [("Planet", JSON.string "Earth"), ("Index", JSON.number "3")]
            ++ [.Delim '\x7d'])) []) with sigpool := [List.replicate 20 255] }
        = .returned ([("Planet", JSON.string "Earth"), ("Index", JSON.number "3")].foldl
            (fun sig m => List.zipWith (· ^^^ ·) sig (sha1 (bytes m.1 ++ m.2.digest)))
            (List.replicate 20 0), none, r') ∧
      r'.dec = [] :=
  ⟨by decide!,
   object_digest_rule traceVisitor
    [("Planet", JSON.string "Earth"), ("Index", JSON.number "3")] "." _ [] 6
    ⟨rfl, rfl, rfl, by simp [sha1Size]⟩ (by decide) (by simp [precompute, newRecurser])⟩

/-- C9. Array digest rule: on the elements `c0...c(n-1)` of a well-formed
array, `recurseArray` returns the SHA-1 of the digests of the elements
concatenated in index order; for no elements this is the SHA-1 of the empty
byte string. -/
theorem array_digest_rule (V : Visitor ν) (xs : List JSON) (path : String)
    (r : recurser (List Cell) ν) (rest : List Cell) (fuel : Nat) (hR : Ready r)
    (hf : elemFuel xs + 2 ≤ fuel)
    (hd : r.dec = cells (elemTokens xs ++ [.Delim ']']) ++ rest) :
    ∃ r', recurseArray scriptDecoder V fuel path r
        = .returned (sha1 (xs.map JSON.digest).flatten, none, r') ∧
      r'.dec = rest := by
  obtain ⟨r', h, hd', -⟩ := (walk V fuel).2.1 xs path r rest hR hf hd
  exact ⟨r', by rw [h, elemDigests_eq_flatten], hd'⟩

/-- C9 on the array `[1, 2]` of the tests. -/
theorem array_digest_rule_witness :
    hex (sha1 (sha1 (bytes "1") ++ sha1 (bytes "2")))
      = "58c6912831df431a52af3cd818caa352f60d8db0" ∧
    ∃ r', recurseArray scriptDecoder traceVisitor 6 "."
        (precompute (newRecurser (cells (elemTokens [.number "1", .number "2"]
          ++ [.Delim ']'])) []))
        = .returned (sha1 (sha1 (bytes "1") ++ sha1 (bytes "2")), none, r') ∧
      r'.dec = [] :=
  ⟨by decide!,
   array_digest_rule traceVisitor [.number "1", .number "2"] "." _ [] 6
    (ready_precompute _ _) (by decide) (by simp [precompute, newRecurser])⟩

/-! ## Pairing of the visitor calls -/

theorem balanced_nil : Balanced [] := fun _ _ => rfl

theorem balanced_append {a b : List Event} (ha : Balanced a) (hb : Balanced b) :
    Balanced (a ++ b) := by
  intro stack rest
  rw [List.append_assoc, ha, hb]

theorem balanced_node (p : String) (k : Token) (sig : Bytes) {evs : List Event}
    (h : Balanced evs) : Balanced (.enter p k :: (evs ++ [.exit p k sig])) := by
  intro stack rest
  simp only [List.cons_append, List.append_assoc, nested, h ((p, k) :: stack)]
  simp [nested]

theorem balanced_scalar (p : String) (k : Token) (sig : Bytes) :
    Balanced [.enter p k, .exit p k sig] :=
  balanced_node p k sig balanced_nil

theorem nested_of_balanced {evs : List Event} (h : Balanced evs) : nested [] evs = true := by
  have := h [] []
  simpa [nested] using this

/-- The calls of a container: `Enter`, the balanced calls below it, `Exit`. -/
theorem node_step (p : String) (k : Token) (sig : Bytes) (v0 v2 : List Event)
    (h : ∃ evs, v2 = traceVisitor.Enter p k v0 ++ evs ∧ Balanced evs) :
    ∃ evs, traceVisitor.Exit p k sig v2 = v0 ++ evs ∧ Balanced evs := by
  obtain ⟨evs, h1, h2⟩ := h
  exact ⟨.enter p k :: (evs ++ [.exit p k sig]), by simp [h1, traceVisitor],
    balanced_node p k sig h2⟩

/-- Between the start and the return of any of the traversal functions, on any
decoder, the visitor receives a balanced sequence of calls. -/
theorem calls_balanced (D : Decoder σ) (n : Nat) :
    (∀ path t (r : recurser σ (List Event)) sig err r',
      recurseToken D traceVisitor n path t r = .returned (sig, err, r') →
      ∃ evs, r'.visitor = r.visitor ++ evs ∧ Balanced evs) ∧
    (∀ path (r : recurser σ (List Event)) sig err r',
      recurseArray D traceVisitor n path r = .returned (sig, err, r') →
      ∃ evs, r'.visitor = r.visitor ++ evs ∧ Balanced evs) ∧
    (∀ path idx hh (r : recurser σ (List Event)) sig err r',
      arrayLoop D traceVisitor n path idx hh r = .returned (sig, err, r') →
      ∃ evs, r'.visitor = r.visitor ++ evs ∧ Balanced evs) ∧
    (∀ path (r : recurser σ (List Event)) sig err r',
      recurseObject D traceVisitor n path r = .returned (sig, err, r') →
      ∃ evs, r'.visitor = r.visitor ++ evs ∧ Balanced evs) ∧
    (∀ path sig0 (r : recurser σ (List Event)) sig err r',
      objectLoop D traceVisitor n path sig0 r = .returned (sig, err, r') →
      ∃ evs, r'.visitor = r.visitor ++ evs ∧ Balanced evs) := by
  induction n with
  | zero =>
    refine ⟨?_, ?_, ?_, ?_, ?_⟩ <;> intros <;>
      simp [recurseToken, recurseArray, arrayLoop, recurseObject, objectLoop] at *
  | succ n ih =>
    obtain ⟨ihT, ihA, ihAL, ihO, ihOL⟩ := ih
    refine ⟨?_, ?_, ?_, ?_, ?_⟩
    · intro path t r sig err r' h
      cases t with
      | Delim c =>
        simp only [recurseToken] at h
        split at h
        · split at h
          · rename_i s2 e2 r2 heq
            cases h
            exact node_step _ _ _ _ _ (ihA _ _ _ _ _ heq)
          · cases h
          · cases h
        · split at h
          · split at h
            · rename_i s2 e2 r2 heq
              cases h
              exact node_step _ _ _ _ _ (ihO _ _ _ _ _ heq)
            · cases h
            · cases h
          · cases h
            exact ⟨[], by simp, balanced_nil⟩
      | bool b =>
        simp only [recurseToken] at h
        cases h
        exact ⟨_, by simp [visitScalar, traceVisitor]; rfl, balanced_scalar path .Boolean _⟩
      | Number lit =>
        simp only [recurseToken] at h
        cases h
        exact ⟨_, by simp [visitScalar, traceVisitor]; rfl, balanced_scalar path .Number _⟩
      | string s =>
        simp only [recurseToken] at h
        cases h
        exact ⟨_, by simp [visitScalar, traceVisitor]; rfl, balanced_scalar path .String _⟩
      | nil =>
        simp only [recurseToken] at h
        cases h
        exact ⟨_, by simp [visitScalar, traceVisitor]; rfl, balanced_scalar path .Null _⟩
      | other =>
        simp only [recurseToken] at h
        cases h
        exact ⟨[], by simp, balanced_nil⟩
    · intro path r sig err r' h
      simp only [recurseArray] at h
      exact ihAL _ _ _ _ _ _ _ h
    · intro path idx hh r sig err r' h
      simp only [arrayLoop] at h
      split at h
      · split at h
        · rename_i s2 r2 heq
          obtain ⟨e1, h1, b1⟩ := ihT _ _ _ _ _ _ heq
          obtain ⟨e2, h2, b2⟩ := ihAL _ _ _ _ _ _ _ h
          exact ⟨e1 ++ e2, by rw [h2, h1]; simp, balanced_append b1 b2⟩
        · rename_i s2 e2 r2 heq
          cases h
          obtain ⟨e1, h1, b1⟩ := ihT _ _ _ _ _ _ heq
          exact ⟨e1, by rw [h1], b1⟩
        · cases h
        · cases h
      · cases h
        exact ⟨[], by simp, balanced_nil⟩
    · intro path r sig err r' h
      simp only [recurseObject] at h
      obtain ⟨e1, h1, b1⟩ := ihOL _ _ _ _ _ _ h
      refine ⟨e1, ?_, b1⟩
      rw [h1]
      unfold sigpoolGet
      split <;> rfl
    · intro path sig0 r sig err r' h
      simp only [objectLoop] at h
      split at h
      · split at h
        · cases h
          exact ⟨[], by simp, balanced_nil⟩
        · split at h
          · cases h
            exact ⟨[], by simp, balanced_nil⟩
          · split at h
            · rename_i s2 r2 heq
              obtain ⟨e1, h1, b1⟩ := ihT _ _ _ _ _ _ heq
              obtain ⟨e2, h2, b2⟩ := ihOL _ _ _ _ _ _ h
              exact ⟨e1 ++ e2, by rw [h2]; simp [h1], balanced_append b1 b2⟩
            · rename_i s2 e2 r2 heq
              cases h
              obtain ⟨e1, h1, b1⟩ := ihT _ _ _ _ _ _ heq
              exact ⟨e1, by rw [h1], b1⟩
            · cases h
            · cases h
        · cases h
      · cases h
        exact ⟨[], by simp, balanced_nil⟩

/-- On any decoder, a run of `Recurse` that returns, with or without an error,
has made a sequence of visitor calls that is paired and nested. -/
theorem Recurse_nested (D : Decoder σ) (fuel : Nat) (dec : σ) (err : Option GoError)
    (log : List Event) (h : Recurse D traceVisitor fuel dec [] = .returned (err, log)) :
    nested [] log = true := by
  unfold Recurse at h
  split at h
  · rename_i s e r heq
    cases h
    unfold recurse at heq
    split at heq
    · cases heq
      rfl
    · obtain ⟨evs, h1, b⟩ := (calls_balanced D fuel).1 _ _ _ _ _ _ heq
      rw [h1]
      exact nested_of_balanced (by simpa [precompute, newRecurser] using b)
  · cases h
  · cases h

/-- On the input `[x` the loop of `recurseArray` never ends: with `n + 1` units
of fuel it reports `n` nodes of kind `Null` and is cut off. -/
theorem stuck_loop (n : Nat) (idx : Int) (hh : Bytes) (r : recurser (List Cell) (List Event))
    (hR : Ready r) (hd : r.dec = [⟨true, .error .SyntaxError, false⟩]) :
    ∃ r', arrayLoop scriptDecoder traceVisitor (n + 1) "." idx hh r = .outOfFuel r' ∧
      r'.visitor = r.visitor ++ elemEvents "." idx (List.replicate n .null) := by
  induction n generalizing idx hh r with
  | zero =>
    refine ⟨{ r with dec := [⟨true, .error .SyntaxError, false⟩] }, ?_, ?_⟩
    · simp [arrayLoop, hd, scriptDecoder, recurseToken]
    · simp [elemEvents]
  | succ n ih =>
    obtain ⟨r', h, hv⟩ := ih (incInt64 idx) (hh ++ r.nullSig)
      (visitScalar traceVisitor (elemPath "." idx) .Null r.nullSig r) hR
      (by simpa [visitScalar] using hd)
    refine ⟨r', ?_, ?_⟩
    · rw [← h]
      have e : arrayLoop scriptDecoder traceVisitor (n + 1 + 1) "." idx hh r
          = arrayLoop scriptDecoder traceVisitor (n + 1) "." (incInt64 idx) (hh ++ r.nullSig)
              (visitScalar traceVisitor (elemPath "." idx) .Null r.nullSig
                { r with dec := [⟨true, .error .SyntaxError, false⟩] }) := by
        rw [arrayLoop]
        simp [hd, scriptDecoder, recurseToken, elemPath]
      rw [e]
      congr 1
      simp [visitScalar, hd]
    · rw [hv]
      simp [visitScalar, traceVisitor, List.replicate_succ, elemEvents, JSON.events,
        hR.2.2.1]

/-- On the input `[x`, the traversal of the root array is cut off. -/
theorem stuck_token (n : Nat) (r : recurser (List Cell) (List Event)) (hR : Ready r)
    (hd : r.dec = [⟨true, .error .SyntaxError, false⟩]) :
    ∃ r', recurseToken scriptDecoder traceVisitor (n + 3) "." (.Delim '[') r = .outOfFuel r' ∧
      r'.visitor
        = r.visitor ++ .enter "." .Array :: elemEvents "." 0 (List.replicate n .null) := by
  obtain ⟨r', h, hv⟩ := stuck_loop n 0 []
    { r with visitor := traceVisitor.Enter "." Token.Array r.visitor } hR hd
  refine ⟨r', ?_, ?_⟩
  · simp only [recurseToken, recurseArray, if_true, h]
  · rw [hv]
    simp [traceVisitor]

/-- C10, at the input `[x`. `Recurse` does not return, whatever the fuel: from
three units on, the run is cut off after the `Enter` of the root array and the
calls for as many `Null` nodes as the fuel allows; no `Exit` of the root is
among the calls. -/
theorem stuck_array_never_exits (n : Nat) :
    Recurse scriptDecoder traceVisitor (n + 3) stuckArray []
      = .outOfFuel (.enter "." .Array :: elemEvents "." 0 (List.replicate n .null)) := by
  obtain ⟨r', h, hv⟩ := stuck_token n
    { precompute (newRecurser stuckArray []) with
      dec := [⟨true, .error .SyntaxError, false⟩] }
    (ready_precompute _ _) rfl
  have p0 : (precompute (newRecurser stuckArray ([] : List Event))).dec
      = cellOf (.Delim '[') :: [⟨true, .error .SyntaxError, false⟩] := rfl
  simp only [Recurse, recurse]
  rw [p0, token_cells]
  simp only [h]
  rw [hv]
  simp [precompute, newRecurser]

/-! ## The claims on counting, paths and scalar digests -/

/-- Structural induction over documents, their element lists and member lists. -/
theorem json_induction {P : JSON → Prop} {Q : List JSON → Prop}
    {R : List (String × JSON) → Prop}
    (hnull : P .null) (hbool : ∀ b, P (.bool b)) (hnum : ∀ lit, P (.number lit))
    (hstr : ∀ s, P (.string s)) (harr : ∀ xs, Q xs → P (.array xs))
    (hobj : ∀ ms, R ms → P (.object ms))
    (hQnil : Q []) (hQcons : ∀ v vs, P v → Q vs → Q (v :: vs))
    (hRnil : R []) (hRcons : ∀ k v ms, P v → R ms → R ((k, v) :: ms)) :
    (∀ v, P v) ∧ (∀ vs, Q vs) ∧ (∀ ms, R ms) := by
  have hP : ∀ v, P v := fun v =>
    @JSON.rec P Q R (fun m => P m.2) hnull hbool hnum hstr harr hobj hQnil hQcons hRnil
      (fun m ms hm hms => hRcons m.1 m.2 ms hm hms) (fun _ _ h => h) v
  refine ⟨hP, ?_, ?_⟩
  · intro vs
    induction vs with
    | nil => exact hQnil
    | cons v vs ih => exact hQcons v vs (hP v) ih
  · intro ms
    induction ms with
    | nil => exact hRnil
    | cons m ms ih => exact hRcons m.1 m.2 ms (hP m.2) ih

/-- C18. `CustomVisitor` without a callback does nothing, and with a callback
it makes exactly the one call of the callback, on the same arguments: the
state after `Enter` or `Exit` is the state the callback returns. Both methods
are total, so they cannot fail. -/
theorem custom_visitor_callbacks (path : String) (token : Token) (signature : Bytes) (s : ν)
    (onEnter : Option (String → Token → ν → ν))
    (onExit : Option (String → Token → Bytes → ν → ν))
    (f : String → Token → ν → ν) (g : String → Token → Bytes → ν → ν) :
    (CustomVisitor.mk none onExit).Enter path token s = s ∧
    (CustomVisitor.mk onEnter none).Exit path token signature s = s ∧
    (CustomVisitor.mk (some f) onExit).Enter path token s = f path token s ∧
    (CustomVisitor.mk onEnter (some g)).Exit path token signature s
      = g path token signature s ∧
    (CustomVisitor.mk (some f) (some g)).toVisitor.Enter path token s = f path token s ∧
    (CustomVisitor.mk (some f) (some g)).toVisitor.Exit path token signature s
      = g path token signature s :=
  ⟨rfl, rfl, rfl, rfl, rfl, rfl⟩

/-! ## Counting -/

/-- The walk of a value exits once per value of its tree. -/
theorem events_exits :
    (∀ (v : JSON) (p : String), (v.events p).countP Event.isExit = v.nodes) ∧
    (∀ (vs : List JSON) (p : String) (idx : Int),
      (elemEvents p idx vs).countP Event.isExit = elemNodes vs) ∧
    (∀ (ms : List (String × JSON)) (p : String),
      (memberEvents p ms).countP Event.isExit = memberNodes ms) := by
  apply json_induction
  · intro p; simp [JSON.events, JSON.nodes, Event.isExit]
  · intro b p; simp [JSON.events, JSON.nodes, Event.isExit]
  · intro lit p; simp [JSON.events, JSON.nodes, Event.isExit]
  · intro s p; simp [JSON.events, JSON.nodes, Event.isExit]
  · intro xs h p
    simp [JSON.events, JSON.nodes, Event.isExit, List.countP_cons, List.countP_append, h]
    omega
  · intro ms h p
    simp [JSON.events, JSON.nodes, Event.isExit, List.countP_cons, List.countP_append, h]
    omega
  · intro p idx; simp [elemEvents, elemNodes]
  · intro v vs hv hvs p idx
    simp [elemEvents, elemNodes, List.countP_append, hv, hvs]
  · intro p; simp [memberEvents, memberNodes]
  · intro k v ms hv hms p
    simp [memberEvents, memberNodes, List.countP_append, hv, hms]

theorem incInt64_eq (c : Int) (h0 : 0 ≤ c) (h1 : c + 1 < 9223372036854775808) :
    incInt64 c = c + 1 := by
  unfold incInt64
  omega

/-- The counter after a sequence of calls, as long as it stays below `2^63`. -/
theorem replay_counting (evs : List Event) (c : Int) (h0 : 0 ≤ c)
    (h1 : c + evs.countP Event.isExit < 9223372036854775808) :
    replay CountingVisitor evs c = c + evs.countP Event.isExit := by
  induction evs generalizing c with
  | nil => simp [replay]
  | cons e evs ih =>
    have step : replay CountingVisitor (e :: evs) c
        = replay CountingVisitor evs (Event.deliver CountingVisitor c e) := rfl
    rw [step]
    cases e with
    | enter p k =>
      have hc : Event.deliver CountingVisitor c (.enter p k) = c := rfl
      rw [hc]
      have hn : (Event.enter p k :: evs).countP Event.isExit = evs.countP Event.isExit := by
        simp [List.countP_cons, Event.isExit]
      rw [hn] at h1 ⊢
      exact ih c h0 h1
    | exit p k sig =>
      have hn : (Event.exit p k sig :: evs).countP Event.isExit
          = evs.countP Event.isExit + 1 := by
        simp [List.countP_cons, Event.isExit]
      rw [hn] at h1 ⊢
      have hc : Event.deliver CountingVisitor c (.exit p k sig) = c + 1 := by
        show incInt64 c = c + 1
        exact incInt64_eq c h0 (by push_cast at h1; omega)
      rw [hc, ih (c + 1) (by omega) (by push_cast at h1 ⊢; omega)]
      push_cast
      omega

/-- C11. Node counting: after `Recurse` over a well-formed document with a
fresh `CountingVisitor`, `Nodes()` is the number of values of the document
tree, the root, every nested container and every scalar included. The
document has fewer than `2^63` values, the range of the counter. -/
theorem counting_visitor_nodes (v : JSON) (fuel : Nat) (hf : v.fuel ≤ fuel)
    (hn : v.nodes < 9223372036854775808) :
    ∃ cv, Recurse scriptDecoder CountingVisitor fuel v.doc 0 = .returned (none, cv) ∧
      CountingVisitor.Nodes cv = v.nodes := by
  refine ⟨_, Recurse_doc CountingVisitor v fuel 0 hf, ?_⟩
  rw [replay_counting _ 0 (le_refl 0) (by rw [events_exits.1]; simp; exact_mod_cast hn),
    events_exits.1]
  simp [CountingVisitor.Nodes]

/-- C11 on the documents of the specification: a single scalar has 1 node,
`[1,2]` has 3, a two-key object of scalars has 3, the RFC 7159 sample has 19. -/
theorem counting_visitor_nodes_witness :
    (∃ cv, Recurse scriptDecoder CountingVisitor 50 JSON.null.doc 0 = .returned (none, cv) ∧
      CountingVisitor.Nodes cv = 1) ∧
    (∃ cv, Recurse scriptDecoder CountingVisitor 50 oneTwo.doc 0 = .returned (none, cv) ∧
      CountingVisitor.Nodes cv = 3) ∧
    (∃ cv, Recurse scriptDecoder CountingVisitor 50 planetFirst.doc 0 = .returned (none, cv) ∧
      CountingVisitor.Nodes cv = 3) ∧
    (∃ cv, Recurse scriptDecoder CountingVisitor 50 SampleJSON.doc 0 = .returned (none, cv) ∧
      CountingVisitor.Nodes cv = 19) :=
  ⟨counting_visitor_nodes .null 50 (by decide) (by decide),
   counting_visitor_nodes oneTwo 50 (by decide) (by decide),
   counting_visitor_nodes planetFirst 50 (by decide) (by decide),
   counting_visitor_nodes SampleJSON 50 (by decide) (by decide)⟩

/-! ## Paths -/

theorem hasSuffix_dot (p : String) : HasSuffix p "." = true ↔ ∃ q : String, p = q ++ "." := by
  unfold HasSuffix
  rw [List.isSuffixOf_iff_suffix]
  constructor
  · rintro ⟨t, ht⟩
    exact ⟨⟨t⟩, by
      apply String.ext
      simp [← ht]⟩
  · rintro ⟨q, rfl⟩
    exact ⟨q.data, by simp⟩

theorem incInt64_cast (i : Nat) (h : i + 1 < 9223372036854775808) :
    incInt64 (i : Int) = ((i + 1 : Nat) : Int) := by
  unfold incInt64
  push_cast
  omega

theorem formatInt_cast (i : Nat) : FormatInt (i : Int) = toString i := rfl

/-- The calls for the elements of an array: element `i` is walked under the
path of the array followed by `[`, the decimal numeral of `i` and `]`. -/
theorem elemEvents_enumFrom (xs : List JSON) (p : String) (i : Nat)
    (h : i + xs.length ≤ 9223372036854775808) :
    elemEvents p (i : Int) xs
      = (xs.enumFrom i).flatMap fun q => q.2.events (p ++ "[" ++ toString q.1 ++ "]") := by
  induction xs generalizing i with
  | nil => simp [elemEvents]
  | cons x xs ih =>
    simp only [List.length_cons] at h
    cases xs with
    | nil => simp [elemEvents, elemPath, formatInt_cast]
    | cons y ys =>
      simp only [List.length_cons] at h ih
      rw [elemEvents, incInt64_cast i (by omega), ih (i + 1) (by omega)]
      simp [elemPath, formatInt_cast, List.enumFrom_cons]

/-- The calls for the members of an object: the member with key `k` is walked
under the path of the object followed by `k`, with a `.` in between unless the
path of the object ends in one. -/
theorem memberEvents_flatMap (ms : List (String × JSON)) (p : String) :
    memberEvents p ms
      = ms.flatMap fun m =>
          m.2.events (if HasSuffix p "." then p ++ m.1 else p ++ "." ++ m.1) := by
  induction ms with
  | nil => simp [memberEvents]
  | cons m ms ih =>
    obtain ⟨k, v⟩ := m
    simp [memberEvents, memberPath, ih]

/-- The walk of a value starts with its `Enter` and ends with its `Exit`, both
under the path of the value. -/
theorem events_shape (p : String) (v : JSON) :
    ∃ mid, v.events p = .enter p v.kind :: (mid ++ [.exit p v.kind v.digest]) := by
  cases v with
  | null => exact ⟨[], rfl⟩
  | bool b => exact ⟨[], rfl⟩
  | number lit => exact ⟨[], rfl⟩
  | string s => exact ⟨[], rfl⟩
  | array elems => exact ⟨elemEvents p 0 elems, by simp [JSON.events, JSON.kind, JSON.digest]⟩
  | object members =>
    exact ⟨memberEvents p members, by simp [JSON.events, JSON.kind, JSON.digest]⟩

/-- C12. Path format: on a well-formed document the visitor calls of `Recurse`
are the walk that starts at the path `.`; every value is entered and exited
under its own path; element `i` of an array at path `p` (of at most `2^63`
elements) is walked under `p ++ "[" ++ decimal i ++ "]"`; the member with key
`k` of an object at path `p` is walked under `p ++ k` when `p` ends in `.` and
under `p ++ "." ++ k` otherwise. -/
theorem path_format (v : JSON) (fuel : Nat) (hf : v.fuel ≤ fuel) :
    Recurse scriptDecoder traceVisitor fuel v.doc [] = .returned (none, v.events ".") ∧
    (∀ (w : JSON) (p : String),
      ∃ mid, w.events p = .enter p w.kind :: (mid ++ [.exit p w.kind w.digest])) ∧
    (∀ (xs : List JSON) (p : String), xs.length ≤ 9223372036854775808 →
      JSON.events p (.array xs) = .enter p .Array ::
        ((xs.enum.flatMap fun q => q.2.events (p ++ "[" ++ toString q.1 ++ "]"))
          ++ [.exit p .Array (JSON.array xs).digest])) ∧
    (∀ (ms : List (String × JSON)) (p : String),
      JSON.events p (.object ms) = .enter p .Object ::
        ((ms.flatMap fun m =>
            m.2.events (if HasSuffix p "." then p ++ m.1 else p ++ "." ++ m.1))
          ++ [.exit p .Object (JSON.object ms).digest])) ∧
    (∀ p : String, HasSuffix p "." = true ↔ ∃ q : String, p = q ++ ".") := by
  refine ⟨?_, fun w p => events_shape p w, ?_, ?_, hasSuffix_dot⟩
  · rw [Recurse_doc traceVisitor v fuel [] hf, replay_trace]
    simp
  · intro xs p h
    have := elemEvents_enumFrom xs p 0 (by omega)
    simp only [Nat.cast_zero] at this
    simp [JSON.events, JSON.digest, this, List.enum]
  · intro ms p
    simp [JSON.events, JSON.digest, memberEvents_flatMap]

/-- C12 on the tests: `[1, 2]` reports `.`, `.[0]` and `.[1]`, and the object
with `Planet` and `Index` reports `.`, `.Planet` and `.Index`. -/
theorem path_format_witness :
    Recurse scriptDecoder traceVisitor 7 oneTwo.doc [] = .returned (none, oneTwo.events ".") ∧
    enterPaths (oneTwo.events ".") = [".", ".[0]", ".[1]"] ∧
    Recurse scriptDecoder traceVisitor 7 planetFirst.doc []
      = .returned (none, planetFirst.events ".") ∧
    enterPaths (planetFirst.events ".") = [".", ".Planet", ".Index"] :=
  ⟨(path_format oneTwo 7 (by decide)).1, by decide,
   (path_format planetFirst 7 (by decide)).1, by decide⟩

theorem bytes_append (a b : String) : bytes (a ++ b) = bytes a ++ bytes b := by
  simp [bytes, String.toUTF8]

/-- C14. Number digest rule: on any decoder and at any path, a Number token is
reported with the SHA-1 of the bytes of its literal text and nothing else. The
digest of `1` is the vector of the tests, the literals `1`, `1.0` and `1e0` get
pairwise different digests, and `Equal` on `1` and `1.0` returns false. -/
theorem number_digest_rule (D : Decoder σ) (V : Visitor ν) (fuel : Nat) (path lit : String)
    (r : recurser σ ν) :
    recurseToken D V (fuel + 1) path (.Number lit) r
      = .returned (sha1 (bytes lit), none,
          visitScalar V path .Number (sha1 (bytes lit)) { r with hasher := bytes lit }) ∧
    Recurse scriptDecoder traceVisitor (fuel + 1) (JSON.number lit).doc []
      = .returned (none, [.enter "." .Number, .exit "." .Number (sha1 (bytes lit))]) ∧
    hex (sha1 (bytes "1")) = "356a192b7913b04c54574d18c28d46e6395428ab" ∧
    sha1 (bytes "1") ≠ sha1 (bytes "1.0") ∧ sha1 (bytes "1") ≠ sha1 (bytes "1e0") ∧
    sha1 (bytes "1.0") ≠ sha1 (bytes "1e0") ∧
    Equal scriptDecoder scriptDecoder (fuel + 1) (JSON.number "1").doc (JSON.number "1.0").doc
      = .returned (false, none) := by
  refine ⟨by simp [recurseToken], ?_, by decide!, by decide!, by decide!, by decide!, ?_⟩
  · rw [Recurse_doc traceVisitor (.number lit) (fuel + 1) [] (by simp [JSON.fuel]),
      replay_trace]
    simp [JSON.events]
  · rw [Equal_doc _ _ (fuel + 1) (by simp [JSON.fuel]) (by simp [JSON.fuel])]
    have h : (JSON.number "1").digest ≠ (JSON.number "1.0").digest := by decide!
    simp [h]

/-- C15. String digest rule: on any decoder and at any path, a String token
with decoded value `s` is reported with the SHA-1 of a double quote, the bytes
of `s` and a double quote. The digest is a function of the decoded value
alone; the digest of `hello` is the vector of the tests. -/
theorem string_digest_rule (D : Decoder σ) (V : Visitor ν) (fuel : Nat) (path s : String)
    (r : recurser σ ν) :
    recurseToken D V (fuel + 1) path (.string s) r
      = .returned (sha1 (34 :: (bytes s ++ [34])), none,
          visitScalar V path .String (sha1 (34 :: (bytes s ++ [34])))
            { r with hasher := 34 :: (bytes s ++ [34]) }) ∧
    Recurse scriptDecoder traceVisitor (fuel + 1) (JSON.string s).doc []
      = .returned (none,
          [.enter "." .String, .exit "." .String (sha1 (34 :: (bytes s ++ [34])))]) ∧
    hex (sha1 (34 :: (bytes "hello" ++ [34]))) = "a1f2fbfe2c4ad81749cd0380b735295d06f9d0c4" := by
  have hq : bytes ("\"" ++ s ++ "\"") = 34 :: (bytes s ++ [34]) := by
    rw [bytes_append, bytes_append]
    rfl
  refine ⟨by simp [recurseToken, hq], ?_, by decide!⟩
  rw [Recurse_doc traceVisitor (.string s) (fuel + 1) [] (by simp [JSON.fuel]), replay_trace]
  simp [JSON.events, hq]

/-! ## Signatures passed to `Exit` -/

theorem checked_refl (r : recurser σ (List Event)) (hR : Ready r) (d : σ)
    (err : Option GoError) : Checked r { r with dec := d } err :=
  ⟨hR, [], by simp, by simp, by simp⟩

theorem checked_trans {r r1 r2 : recurser σ (List Event)} {err : Option GoError}
    (h1 : Checked r r1 none) (h2 : Checked r1 r2 err) : Checked r r2 err := by
  obtain ⟨-, e1, v1, c1, s1⟩ := h1
  obtain ⟨R2, e2, v2, c2, s2⟩ := h2
  refine ⟨R2, e1 ++ e2, by rw [v2, v1]; simp, ?_, ?_⟩
  · intro e he
    rcases List.mem_append.1 he with h | h
    · exact c1 e h
    · exact c2 e h
  · intro hn e he
    rcases List.mem_append.1 he with h | h
    · exact s1 rfl e h
    · exact s2 hn e h

theorem checked_fail {r r1 : recurser σ (List Event)} {err : Option GoError} (e : GoError)
    (h1 : Checked r r1 err) : Checked r r1 (some e) := by
  obtain ⟨R1, e1, v1, c1, -⟩ := h1
  exact ⟨R1, e1, v1, c1, by simp⟩

theorem checked_scalar (r : recurser σ (List Event)) (hR : Ready r) (p : String) (k : Token)
    (sig h : Bytes) (hc : (Event.exit p k sig).constant) (hs : sig.length = 20)
    (err : Option GoError) :
    Checked r (visitScalar traceVisitor p k sig { r with hasher := h }) err := by
  refine ⟨hR, [.enter p k, .exit p k sig], by simp [visitScalar, traceVisitor], ?_, ?_⟩
  · intro e he
    simp at he
    rcases he with rfl | rfl
    · simp [Event.constant]
    · exact hc
  · intro _ e he
    simp at he
    rcases he with rfl | rfl
    · simp [Event.sized]
    · simpa [Event.sized, sha1Size] using hs

theorem checked_node (r r2 : recurser σ (List Event)) (p : String) (k : Token) (sig : Bytes)
    (err : Option GoError)
    (h : Checked { r with visitor := traceVisitor.Enter p k r.visitor } r2 err)
    (hc : (Event.exit p k sig).constant) (hs : err = none → sig.length = 20) :
    Checked r { r2 with visitor := traceVisitor.Exit p k sig r2.visitor } err := by
  obtain ⟨R2, e2, v2, c2, s2⟩ := h
  refine ⟨R2, .enter p k :: (e2 ++ [.exit p k sig]), ?_, ?_, ?_⟩
  · simp only [traceVisitor] at v2 ⊢
    simp [v2]
  · intro e he
    simp at he
    rcases he with rfl | h | rfl
    · simp [Event.constant]
    · exact c2 e h
    · exact hc
  · intro hn e he
    simp at he
    rcases he with rfl | h | rfl
    · simp [Event.sized]
    · exact s2 hn e h
    · simpa [Event.sized, sha1Size] using hs hn

theorem sigpoolGet_ready (r : recurser σ ν) (hR : Ready r) :
    Ready (sigpoolGet r).2 ∧ (sigpoolGet r).2.visitor = r.visitor ∧
      ((sigpoolGet r).1.map fun _ => 0).length = 20 := by
  unfold sigpoolGet
  split
  · exact ⟨hR, rfl, by simp [sha1Size]⟩
  · rename_i b pool hp
    refine ⟨⟨hR.1, hR.2.1, hR.2.2.1, fun x hx => hR.2.2.2 x ?_⟩, rfl, ?_⟩
    · rw [hp]; exact List.mem_cons_of_mem _ hx
    · have := hR.2.2.2 b (by rw [hp]; exact List.mem_cons_self _ _)
      simpa [sha1Size] using this

/-- On any decoder, each traversal function keeps the recurser ready and
reports null and boolean nodes with their constants; when it returns no
error, every signature it passed to `Exit` and the signature it returns for a
container have twenty bytes. -/
theorem calls_checked (D : Decoder σ) (n : Nat) :
    (∀ path t (r : recurser σ (List Event)) sig err r', recurseToken D traceVisitor n path t r = .returned (sig, err, r') → Ready r →
      Checked r r' err) ∧
    (∀ path (r : recurser σ (List Event)) sig err r', recurseArray D traceVisitor n path r = .returned (sig, err, r') → Ready r →
      Checked r r' err ∧ (err = none → sig.length = 20)) ∧
    (∀ path idx hh (r : recurser σ (List Event)) sig err r', arrayLoop D traceVisitor n path idx hh r = .returned (sig, err, r') → Ready r →
      Checked r r' err ∧ (err = none → sig.length = 20)) ∧
    (∀ path (r : recurser σ (List Event)) sig err r', recurseObject D traceVisitor n path r = .returned (sig, err, r') → Ready r →
      Checked r r' err ∧ (err = none → sig.length = 20)) ∧
    (∀ path sig0 (r : recurser σ (List Event)) sig err r', objectLoop D traceVisitor n path sig0 r = .returned (sig, err, r') → Ready r →
      Checked r r' err ∧ (err = none → sig.length = sig0.length)) := by
  induction n with
  | zero =>
    refine ⟨?_, ?_, ?_, ?_, ?_⟩ <;> intros <;>
      simp [recurseToken, recurseArray, arrayLoop, recurseObject, objectLoop] at *
  | succ n ih =>
    obtain ⟨ihT, ihA, ihAL, ihO, ihOL⟩ := ih
    refine ⟨?_, ?_, ?_, ?_, ?_⟩
    · intro path t r sig err r' h hR
      cases t with
      | Delim c =>
        simp only [recurseToken] at h
        split at h
        · split at h
          · rename_i s2 e2 r2 heq
            cases h
            obtain ⟨hc, hl⟩ := ihA _ _ _ _ _ heq hR
            exact checked_node r r2 path .Array _ _ hc (by simp [Event.constant]) hl
          · cases h
          · cases h
        · split at h
          · split at h
            · rename_i s2 e2 r2 heq
              cases h
              obtain ⟨hc, hl⟩ := ihO _ _ _ _ _ heq hR
              exact checked_node r r2 path .Object _ _ hc (by simp [Event.constant]) hl
            · cases h
            · cases h
          · cases h
            exact ⟨hR, [], by simp, by simp, by simp⟩
      | bool b =>
        simp only [recurseToken] at h
        cases h
        have := checked_scalar r hR path .Boolean (if b then r.trueSig else r.falseSig)
          r.hasher (by cases b <;> simp [Event.constant, hR.1, hR.2.1])
          (by cases b <;> simp [hR.1, hR.2.1, sha1_length]) none
        exact this
      | Number lit =>
        simp only [recurseToken] at h
        cases h
        exact checked_scalar r hR path .Number _ _ (by simp [Event.constant])
          (sha1_length _) none
      | string s =>
        simp only [recurseToken] at h
        cases h
        exact checked_scalar r hR path .String _ _ (by simp [Event.constant])
          (sha1_length _) none
      | nil =>
        simp only [recurseToken] at h
        cases h
        have := checked_scalar r hR path .Null r.nullSig r.hasher
          (by simp [Event.constant, hR.2.2.1]) (by simp [hR.2.2.1, sha1_length]) none
        exact this
      | other =>
        simp only [recurseToken] at h
        cases h
        exact ⟨hR, [], by simp, by simp, by simp⟩
    · intro path r sig err r' h hR
      simp only [recurseArray] at h
      exact ihAL _ _ _ _ _ _ _ h hR
    · intro path idx hh r sig err r' h hR
      simp only [arrayLoop] at h
      split at h
      · split at h
        · rename_i s2 r2 heq
          have c1 := ihT _ _ _ _ _ _ heq hR
          obtain ⟨c2, l2⟩ := ihAL _ _ _ _ _ _ _ h c1.1
          exact ⟨checked_trans c1 c2, l2⟩
        · rename_i s2 e2 r2 heq
          cases h
          have c1 := ihT _ _ _ _ _ _ heq hR
          exact ⟨c1, by simp⟩
        · cases h
        · cases h
      · cases h
        exact ⟨checked_refl r hR _ none, fun _ => sha1_length _⟩
    · intro path r sig err r' h hR
      simp only [recurseObject] at h
      obtain ⟨hR1, hv1, hl1⟩ := sigpoolGet_ready r hR
      obtain ⟨c1, l1⟩ := ihOL _ _ _ _ _ _ h hR1
      refine ⟨?_, fun hn => (l1 hn).trans hl1⟩
      obtain ⟨R', evs, v, c, s⟩ := c1
      exact ⟨R', evs, by rw [v, hv1], c, s⟩
    · intro path sig0 r sig err r' h hR
      simp only [objectLoop] at h
      split at h
      · split at h
        · cases h
          exact ⟨checked_refl r hR _ _, by simp⟩
        · split at h
          · cases h
            exact ⟨checked_refl r hR _ _, by simp⟩
          · split at h
            · rename_i s2 r2 heq
              have c1 := ihT _ _ _ _ _ _ heq hR
              obtain ⟨c2, l2⟩ := ihOL _ _ _ _ _ _ h c1.1
              exact ⟨checked_trans c1 c2, fun hn => (l2 hn).trans (xorInto_length _ _)⟩
            · rename_i s2 e2 r2 heq
              cases h
              have c1 := ihT _ _ _ _ _ _ heq hR
              exact ⟨c1, by simp⟩
            · cases h
            · cases h
        · cases h
      · cases h
        exact ⟨checked_refl r hR _ none, fun _ => rfl⟩

/-! ## Decimal numerals and sibling paths -/

theorem digitChar_value (d : Nat) (h : d < 10) : (Nat.digitChar d).toNat - 48 = d := by
  interval_cases d <;> rfl

theorem toDigitsCore_value (f n : Nat) (ds : List Char) (h : n < f) :
    decimalValue (Nat.toDigitsCore 10 f n ds) 0 = decimalValue ds n := by
  induction f generalizing n ds with
  | zero => omega
  | succ f ih =>
    simp only [Nat.toDigitsCore]
    split
    · rename_i h0
      have hn : n % 10 = n := by omega
      simp [decimalValue, hn, digitChar_value n (by omega)]
    · rename_i h0
      rw [ih (n / 10) _ (by omega)]
      simp only [decimalValue, List.foldl_cons,
        digitChar_value (n % 10) (Nat.mod_lt _ (by decide))]
      congr 1
      omega

/-- Decimal numerals of different naturals differ. -/
theorem toString_nat_injective (i j : Nat) (h : toString i = toString j) : i = j := by
  have hd : Nat.toDigits 10 i = Nat.toDigits 10 j := by
    have := congrArg String.data h
    simpa [toString, Nat.repr, List.asString] using this
  have hi := toDigitsCore_value (i + 1) i [] (by omega)
  have hj := toDigitsCore_value (j + 1) j [] (by omega)
  simp only [Nat.toDigits] at hd
  rw [hd, hj] at hi
  simpa [decimalValue] using hi.symm

theorem string_append_left_cancel (p a b : String) (h : p ++ a = p ++ b) : a = b := by
  have := congrArg String.data h
  simp only [String.data_append] at this
  exact String.ext (List.append_cancel_left this)

theorem string_append_right_cancel (a b q : String) (h : a ++ q = b ++ q) : a = b := by
  have := congrArg String.data h
  simp only [String.data_append] at this
  exact String.ext (List.append_cancel_right this)

theorem elemPath_injective (p : String) (i j : Nat) (h : elemPath p i = elemPath p j) :
    i = j := by
  simp only [elemPath, String.append_assoc] at h
  have h1 := string_append_left_cancel _ _ _ (string_append_left_cancel _ _ _ h)
  have h2 := string_append_right_cancel _ _ _ h1
  exact toString_nat_injective i j h2

theorem memberPath_injective (p k k' : String) (h : memberPath p k = memberPath p k') :
    k = k' := by
  unfold memberPath at h
  split at h
  · exact string_append_left_cancel _ _ _ h
  · exact string_append_left_cancel _ _ _ h

/-- On the script of a document, the recorded calls of `Recurse` are the walk
of the document from the path `.`. -/
theorem Recurse_trace (v : JSON) (fuel : Nat) (hf : v.fuel ≤ fuel) :
    Recurse scriptDecoder traceVisitor fuel v.doc [] = .returned (none, v.events ".") := by
  rw [Recurse_doc traceVisitor v fuel [] hf, replay_trace]
  simp

/-- On any decoder, a run of `Recurse` that returns has reported every null
and boolean node with its constant, and, when it returns no error, has passed
twenty bytes to every `Exit`. -/
theorem Recurse_checked (D : Decoder σ) (fuel : Nat) (dec : σ) (err : Option GoError)
    (log : List Event) (h : Recurse D traceVisitor fuel dec [] = .returned (err, log)) :
    (∀ e ∈ log, e.constant) ∧ (err = none → ∀ e ∈ log, e.sized) := by
  unfold Recurse at h
  split at h
  · rename_i s e r heq
    cases h
    unfold recurse at heq
    split at heq
    · cases heq
      simp [precompute, newRecurser]
    · obtain ⟨-, evs, hv, hc, hs⟩ :=
        (calls_checked D fuel).1 _ _ _ _ _ _ heq (ready_precompute _ _)
      have hv' : r.visitor = evs := by simpa [precompute, newRecurser] using hv
      rw [hv']
      exact ⟨hc, hs⟩
  · cases h
  · cases h

/-- C13. Null/Boolean digest rule: `precompute` sets the three constants to
the SHA-1 of `true`, `false` and `null`, whose values are the vectors of the
tests; from a ready recurser a nil token is reported with the SHA-1 of `null`
and a boolean token with the SHA-1 of `true` or of `false`, at any path; and
in every run of `Recurse` that returns, on any decoder, every `Exit` for a
`Null` node carries the SHA-1 of `null` and every `Exit` for a `Boolean` node
the SHA-1 of `true` or of `false`. -/
theorem null_boolean_digest_rule (D : Decoder σ) (V : Visitor ν) (fuel : Nat) (dec : σ)
    (path : String) (r : recurser σ ν) (hR : Ready r) (err : Option GoError)
    (log : List Event) (h : Recurse D traceVisitor fuel dec [] = .returned (err, log)) :
    ((precompute r).trueSig = sha1 (bytes "true") ∧
      (precompute r).falseSig = sha1 (bytes "false") ∧
      (precompute r).nullSig = sha1 (bytes "null")) ∧
    recurseToken D V (fuel + 1) path .nil r
      = .returned (sha1 (bytes "null"), none,
          visitScalar V path .Null (sha1 (bytes "null")) r) ∧
    recurseToken D V (fuel + 1) path (.bool true) r
      = .returned (sha1 (bytes "true"), none,
          visitScalar V path .Boolean (sha1 (bytes "true")) r) ∧
    recurseToken D V (fuel + 1) path (.bool false) r
      = .returned (sha1 (bytes "false"), none,
          visitScalar V path .Boolean (sha1 (bytes "false")) r) ∧
    (∀ p sig, Event.exit p .Null sig ∈ log → sig = sha1 (bytes "null")) ∧
    (∀ p sig, Event.exit p .Boolean sig ∈ log →
      sig = sha1 (bytes "true") ∨ sig = sha1 (bytes "false")) ∧
    hex (sha1 (bytes "null")) = "2be88ca4242c76e8253ac62474851065032d6833" ∧
    hex (sha1 (bytes "true")) = "5ffe533b830f08a0326348a9160afafc8ada44db" ∧
    hex (sha1 (bytes "false")) = "7cb6efb98ba5972a9b5090dc2e517fe14d12cb04" := by
  have hc := (Recurse_checked D fuel dec err log h).1
  refine ⟨⟨rfl, rfl, rfl⟩, ?_, ?_, ?_, ?_, ?_, by decide!, by decide!, by decide!⟩
  · simp [recurseToken, hR.2.2.1]
  · simp [recurseToken, hR.1]
  · simp [recurseToken, hR.2.1]
  · intro p sig hm
    simpa [Event.constant] using hc _ hm
  · intro p sig hm
    simpa [Event.constant] using hc _ hm

/-- C13 on the document `[null, true, false, null]`. -/
theorem null_boolean_digest_rule_witness :
    Recurse scriptDecoder traceVisitor 12
        (JSON.array [.null, .bool true, .bool false, .null]).doc []
      = .returned (none, (JSON.array [.null, .bool true, .bool false, .null]).events ".") ∧
    (∀ p sig, Event.exit p .Null sig
        ∈ (JSON.array [.null, .bool true, .bool false, .null]).events "." →
      sig = sha1 (bytes "null")) ∧
    (∀ p sig, Event.exit p .Boolean sig
        ∈ (JSON.array [.null, .bool true, .bool false, .null]).events "." →
      sig = sha1 (bytes "true") ∨ sig = sha1 (bytes "false")) :=
  ⟨Recurse_trace _ 12 (by decide),
   (null_boolean_digest_rule scriptDecoder traceVisitor 12
      (JSON.array [.null, .bool true, .bool false, .null]).doc "."
      (precompute (newRecurser [] [])) (ready_precompute _ _) none _
      (Recurse_trace _ 12 (by decide))).2.2.2.2.1,
   (null_boolean_digest_rule scriptDecoder traceVisitor 12
      (JSON.array [.null, .bool true, .bool false, .null]).doc "."
      (precompute (newRecurser [] [])) (ready_precompute _ _) none _
      (Recurse_trace _ 12 (by decide))).2.2.2.2.2.1⟩

/-- C17, at the input that opens an object, gives the key `a` and ends. The
read of the value fails, and `Exit` is called for the root object with a nil
signature, not with twenty bytes. -/
theorem exit_with_nil_signature :
    Recurse scriptDecoder traceVisitor 5 truncatedKey []
      = .returned (some .EOF, [.enter "." .Object, .exit "." .Object []]) ∧
    ¬ (Event.exit "." .Object []).sized := by
  refine ⟨by decide, ?_⟩
  simp [Event.sized, sha1Size]

/-- Where the signatures have their full length: on any decoder, when
`Recurse` returns no error, every signature it passed to `Exit` has exactly
twenty bytes, whatever the kind of the node; on a well-formed document
`Recurse` returns no error, so this holds for every node of the document. -/
theorem exit_signature_length (D : Decoder σ) (fuel : Nat) (dec : σ) (log : List Event)
    (h : Recurse D traceVisitor fuel dec [] = .returned (none, log)) :
    (∀ p k sig, Event.exit p k sig ∈ log → sig.length = 20) ∧
    (∀ (v : JSON) (fuel' : Nat), v.fuel ≤ fuel' →
      Recurse scriptDecoder traceVisitor fuel' v.doc [] = .returned (none, v.events ".") ∧
      ∀ p k sig, Event.exit p k sig ∈ v.events "." → sig.length = 20) := by
  constructor
  · intro p k sig hm
    have := (Recurse_checked D fuel dec none log h).2 rfl _ hm
    simpa [Event.sized, sha1Size] using this
  · intro v fuel' hf
    refine ⟨Recurse_trace v fuel' hf, ?_⟩
    intro p k sig hm
    have := (Recurse_checked scriptDecoder fuel' v.doc none _ (Recurse_trace v fuel' hf)).2
      rfl _ hm
    simpa [Event.sized, sha1Size] using this

/-- The signatures of all nodes of the RFC 7159 sample have twenty bytes. -/
theorem exit_signature_length_witness :
    Recurse scriptDecoder traceVisitor 50 SampleJSON.doc []
      = .returned (none, SampleJSON.events ".") ∧
    ∀ p k sig, Event.exit p k sig ∈ SampleJSON.events "." → sig.length = 20 :=
  ⟨Recurse_trace SampleJSON 50 (by decide),
   (exit_signature_length scriptDecoder 50 SampleJSON.doc _
      (Recurse_trace SampleJSON 50 (by decide))).1⟩

/-- A run that leaves the visitor alone has grown it by no call. -/
theorem grown_refl (r : recurser σ (List Event)) (d : σ) : Grown r { r with dec := d } :=
  ⟨[], by simp, by simp⟩

/-- Runs that grow the visitor compose. -/
theorem grown_trans {r r1 r2 : recurser σ (List Event)} (h1 : Grown r r1) (h2 : Grown r1 r2) :
    Grown r r2 := by
  obtain ⟨e1, v1, s1⟩ := h1
  obtain ⟨e2, v2, s2⟩ := h2
  refine ⟨e1 ++ e2, by rw [v2, v1]; simp, ?_⟩
  intro e he
  rcases List.mem_append.1 he with h | h
  · exact s1 e h
  · exact s2 e h

/-- The two calls for a scalar carry a signature of twenty bytes. -/
theorem grown_scalar (r : recurser σ (List Event)) (p : String) (k : Token) (sig h : Bytes)
    (hs : sig.length = 20) :
    Grown r (visitScalar traceVisitor p k sig { r with hasher := h }) := by
  refine ⟨[.enter p k, .exit p k sig], by simp [visitScalar, traceVisitor], ?_⟩
  intro e he
  simp at he
  rcases he with rfl | rfl
  · simp [Event.sizedOrNil]
  · simp [Event.sizedOrNil, sha1Size, hs]

/-- The calls for a container: `Enter`, the calls of the body, and `Exit` with
what the body returned. -/
theorem grown_node (r r2 : recurser σ (List Event)) (p : String) (k : Token) (sig : Bytes)
    (h : Grown { r with visitor := traceVisitor.Enter p k r.visitor } r2)
    (hs : sig.length = 20 ∨ sig = []) :
    Grown r { r2 with visitor := traceVisitor.Exit p k sig r2.visitor } := by
  obtain ⟨e2, v2, s2⟩ := h
  refine ⟨.enter p k :: (e2 ++ [.exit p k sig]), ?_, ?_⟩
  · simp only [traceVisitor] at v2 ⊢
    simp [v2]
  · intro e he
    simp at he
    rcases he with rfl | h | rfl
    · simp [Event.sizedOrNil]
    · exact s2 e h
    · simpa [Event.sizedOrNil, sha1Size] using hs

/-- On any decoder, whether or not an error is returned, every signature a
traversal function passes to `Exit` has twenty bytes or is nil, and so is the
signature it returns for a container. -/
theorem calls_grown (D : Decoder σ) (n : Nat) :
    (∀ path t (r : recurser σ (List Event)) sig err r',
      recurseToken D traceVisitor n path t r = .returned (sig, err, r') → Ready r →
      Grown r r') ∧
    (∀ path (r : recurser σ (List Event)) sig err r',
      recurseArray D traceVisitor n path r = .returned (sig, err, r') → Ready r →
      Grown r r' ∧ (sig.length = 20 ∨ sig = [])) ∧
    (∀ path idx hh (r : recurser σ (List Event)) sig err r',
      arrayLoop D traceVisitor n path idx hh r = .returned (sig, err, r') → Ready r →
      Grown r r' ∧ (sig.length = 20 ∨ sig = [])) ∧
    (∀ path (r : recurser σ (List Event)) sig err r',
      recurseObject D traceVisitor n path r = .returned (sig, err, r') → Ready r →
      Grown r r' ∧ (sig.length = 20 ∨ sig = [])) ∧
    (∀ path sig0 (r : recurser σ (List Event)) sig err r',
      objectLoop D traceVisitor n path sig0 r = .returned (sig, err, r') → Ready r →
      Grown r r' ∧ (sig.length = sig0.length ∨ sig = [])) := by
  induction n with
  | zero =>
    refine ⟨?_, ?_, ?_, ?_, ?_⟩ <;> intros <;>
      simp [recurseToken, recurseArray, arrayLoop, recurseObject, objectLoop] at *
  | succ n ih =>
    obtain ⟨ihT, ihA, ihAL, ihO, ihOL⟩ := ih
    have rdy := (calls_checked D n).1
    refine ⟨?_, ?_, ?_, ?_, ?_⟩
    · intro path t r sig err r' h hR
      cases t with
      | Delim c =>
        simp only [recurseToken] at h
        split at h
        · split at h
          · rename_i s2 e2 r2 heq
            cases h
            obtain ⟨hc, hl⟩ := ihA _ _ _ _ _ heq hR
            exact grown_node r r2 path .Array _ hc hl
          · cases h
          · cases h
        · split at h
          · split at h
            · rename_i s2 e2 r2 heq
              cases h
              obtain ⟨hc, hl⟩ := ihO _ _ _ _ _ heq hR
              exact grown_node r r2 path .Object _ hc hl
            · cases h
            · cases h
          · cases h
            exact ⟨[], by simp, by simp⟩
      | bool b =>
        simp only [recurseToken] at h
        cases h
        exact grown_scalar r path .Boolean (if b then r.trueSig else r.falseSig) r.hasher
          (by cases b <;> simp [hR.1, hR.2.1, sha1_length])
      | Number lit =>
        simp only [recurseToken] at h
        cases h
        exact grown_scalar r path .Number _ _ (sha1_length _)
      | string s =>
        simp only [recurseToken] at h
        cases h
        exact grown_scalar r path .String _ _ (sha1_length _)
      | nil =>
        simp only [recurseToken] at h
        cases h
        exact grown_scalar r path .Null r.nullSig r.hasher (by simp [hR.2.2.1, sha1_length])
      | other =>
        simp only [recurseToken] at h
        cases h
        exact ⟨[], by simp, by simp⟩
    · intro path r sig err r' h hR
      simp only [recurseArray] at h
      exact ihAL _ _ _ _ _ _ _ h hR
    · intro path idx hh r sig err r' h hR
      simp only [arrayLoop] at h
      split at h
      · split at h
        · rename_i s2 r2 heq
          have c1 := ihT _ _ _ _ _ _ heq hR
          have R2 := (rdy _ _ _ _ _ _ heq hR).1
          obtain ⟨c2, l2⟩ := ihAL _ _ _ _ _ _ _ h R2
          exact ⟨grown_trans c1 c2, l2⟩
        · rename_i s2 e2 r2 heq
          cases h
          have c1 := ihT _ _ _ _ _ _ heq hR
          exact ⟨c1, Or.inr rfl⟩
        · cases h
        · cases h
      · cases h
        exact ⟨grown_refl r _, Or.inl (sha1_length _)⟩
    · intro path r sig err r' h hR
      simp only [recurseObject] at h
      obtain ⟨hR1, hv1, hl1⟩ := sigpoolGet_ready r hR
      obtain ⟨c1, l1⟩ := ihOL _ _ _ _ _ _ h hR1
      refine ⟨?_, ?_⟩
      · obtain ⟨evs, v, s⟩ := c1
        exact ⟨evs, by rw [v, hv1], s⟩
      · rcases l1 with l | l
        · exact Or.inl (l.trans hl1)
        · exact Or.inr l
    · intro path sig0 r sig err r' h hR
      simp only [objectLoop] at h
      split at h
      · split at h
        · cases h
          exact ⟨grown_refl r _, Or.inr rfl⟩
        · split at h
          · cases h
            exact ⟨grown_refl r _, Or.inr rfl⟩
          · split at h
            · rename_i s2 r2 heq
              have c1 := ihT _ _ _ _ _ _ heq hR
              have R2 := (rdy _ _ _ _ _ _ heq hR).1
              obtain ⟨c2, l2⟩ := ihOL _ _ _ _ _ _ h R2
              refine ⟨grown_trans c1 c2, ?_⟩
              rcases l2 with l | l
              · exact Or.inl (l.trans (xorInto_length _ _))
              · exact Or.inr l
            · rename_i s2 e2 r2 heq
              cases h
              have c1 := ihT _ _ _ _ _ _ heq hR
              exact ⟨c1, Or.inr rfl⟩
            · cases h
            · cases h
        · cases h
      · cases h
        exact ⟨grown_refl r _, Or.inl rfl⟩

/-- On any decoder, in every run of `Recurse` that returns, with or without an
error, every signature passed to `Exit` has twenty bytes or is nil. -/
theorem Recurse_sized_or_nil (D : Decoder σ) (fuel : Nat) (dec : σ) (err : Option GoError)
    (log : List Event) (h : Recurse D traceVisitor fuel dec [] = .returned (err, log)) :
    ∀ p k sig, Event.exit p k sig ∈ log → sig.length = 20 ∨ sig = [] := by
  unfold Recurse at h
  split at h
  · rename_i s e r heq
    cases h
    unfold recurse at heq
    split at heq
    · cases heq
      simp [precompute, newRecurser]
    · obtain ⟨evs, hv, hs⟩ := (calls_grown D fuel).1 _ _ _ _ _ _ heq (ready_precompute _ _)
      have hv' : r.visitor = evs := by simpa [precompute, newRecurser] using hv
      rw [hv']
      intro p k sig hm
      simpa [Event.sizedOrNil, sha1Size] using hs _ hm
  · cases h
  · cases h

theorem memberDigest_twice (acc : Bytes) (k k' : String) (v v' : JSON)
    (hk : bytes k = bytes k') (hv : v.digest = v'.digest) (ms : List (String × JSON)) :
    memberDigest acc ((k, v) :: (k', v') :: ms) = memberDigest acc ms := by
  simp only [memberDigest]
  rw [← hk, ← hv, xorInto_cancel]

theorem memberDigest_even (acc : Bytes) (m : String × JSON) (n : Nat) :
    memberDigest acc (List.replicate (2 * n) m) = acc := by
  induction n with
  | zero => rfl
  | succ n ih =>
    have : 2 * (n + 1) = (2 * n + 1) + 1 := by omega
    rw [this, List.replicate_succ, List.replicate_succ]
    obtain ⟨k, v⟩ := m
    rw [memberDigest_twice acc k k v v rfl rfl, ih]

/-- C19. Duplicate-pair cancellation: when the members `ns` of an object are
the members `ms` of another plus two pairs with the same key bytes and the
same child digest, in any positions, `recurseObject` returns the same
signature on both; and for an object that is one pair repeated an even number
of times, `Recurse` reports the all-zero digest of the object without
members. -/
theorem duplicate_pair_cancellation (V : Visitor ν) (ms ns : List (String × JSON))
    (k k' : String) (v v' : JSON) (hk : bytes k = bytes k') (hv : v.digest = v'.digest)
    (hp : ns.Perm ((k, v) :: (k', v') :: ms)) (path : String)
    (r1 r2 : recurser (List Cell) ν) (rest1 rest2 : List Cell) (fuel : Nat)
    (hR1 : Ready r1) (hR2 : Ready r2)
    (hd1 : r1.dec = cells (memberTokens ms ++ [.Delim '\x7d']) ++ rest1)
    (hd2 : r2.dec = cells (memberTokens ns ++ [.Delim '\x7d']) ++ rest2)
    (hf1 : memberFuel ms + 2 ≤ fuel) (hf2 : memberFuel ns + 2 ≤ fuel) :
    (∃ sig r1' r2',
      recurseObject scriptDecoder V fuel path r1 = .returned (sig, none, r1') ∧
      recurseObject scriptDecoder V fuel path r2 = .returned (sig, none, r2')) ∧
    (∀ (n fuel' : Nat), (JSON.object (List.replicate (2 * n) (k, v))).fuel ≤ fuel' →
      Recurse scriptDecoder rootSigVisitor fuel' (JSON.object (List.replicate (2 * n) (k, v))).doc []
        = .returned (none, List.replicate 20 0) ∧
      Recurse scriptDecoder rootSigVisitor fuel' noMembers.doc []
        = .returned (none, List.replicate 20 0)) := by
  constructor
  · obtain ⟨a, ha, -⟩ := (walk V fuel).2.2.2.1 ms path r1 rest1 hR1 hf1 hd1
    obtain ⟨b, hb, -⟩ := (walk V fuel).2.2.2.1 ns path r2 rest2 hR2 hf2 hd2
    refine ⟨_, a, b, ha, ?_⟩
    rw [hb, memberDigest_perm hp, memberDigest_twice zeroSig k k' v v' hk hv]
  · intro n fuel' hf
    constructor
    · rw [Recurse_rootSig _ fuel' hf]
      simp only [JSON.digest, memberDigest_even]
      rfl
    · rw [Recurse_rootSig noMembers fuel' (by
        have : noMembers.fuel = 3 := rfl
        have : 3 ≤ (JSON.object (List.replicate (2 * n) (k, v))).fuel := by
          simp only [JSON.fuel]; omega
        omega)]
      rfl

/-- C19 on the object with the members `b: 2`, `a: 1`, `a: 1` against the
object with the member `b: 2`, and on the member `a: 1` four times. -/
theorem duplicate_pair_cancellation_witness :
    (∃ sig r1' r2',
      recurseObject scriptDecoder traceVisitor 9 "."
        (precompute (newRecurser (cells (memberTokens [("b", .number "2")]
          ++ [.Delim '\x7d'])) [])) = .returned (sig, none, r1') ∧
      recurseObject scriptDecoder traceVisitor 9 "."
        (precompute (newRecurser (cells (memberTokens
          [("a", .number "1"), ("b", .number "2"), ("a", .number "1")]
          ++ [.Delim '\x7d'])) [])) = .returned (sig, none, r2')) ∧
    Recurse scriptDecoder rootSigVisitor 11
        (JSON.object (List.replicate (2 * 2) ("a", JSON.number "1"))).doc []
      = .returned (none, List.replicate 20 0) :=
  ⟨(duplicate_pair_cancellation traceVisitor [("b", .number "2")]
      [("a", .number "1"), ("b", .number "2"), ("a", .number "1")]
      "a" "a" (.number "1") (.number "1") rfl rfl
      (List.Perm.cons _ (List.Perm.swap _ _ _)) "." _ _ [] [] 9
      (ready_precompute _ _) (ready_precompute _ _) (by simp [precompute, newRecurser])
      (by simp [precompute, newRecurser]) (by decide) (by decide)).1,
   ((duplicate_pair_cancellation traceVisitor [("b", .number "2")]
      [("a", .number "1"), ("b", .number "2"), ("a", .number "1")]
      "a" "a" (.number "1") (.number "1") rfl rfl
      (List.Perm.cons _ (List.Perm.swap _ _ _)) "."
      (precompute (newRecurser (cells (memberTokens [("b", .number "2")]
          ++ [.Delim '\x7d'])) []))
      (precompute (newRecurser (cells (memberTokens
          [("a", .number "1"), ("b", .number "2"), ("a", .number "1")]
          ++ [.Delim '\x7d'])) [])) [] [] 9
      (ready_precompute _ _) (ready_precompute _ _) (by simp [precompute, newRecurser])
      (by simp [precompute, newRecurser]) (by decide) (by decide)).2 2 11 (by decide)).1⟩

/-! ## Determinism -/

/-- On one and the same input, `Equal` cannot return false: when it returns,
both traversals have captured the same signature. -/
theorem Equal_self (D : Decoder σ) (fuel : Nat) (b : σ) (res : Bool × Option GoError)
    (h : Equal D D fuel b b = .returned res) : res = (true, none) := by
  unfold Equal at h
  split at h
  · simp at h
    exact h.symm
  · cases h
  · cases h

/-- On the input `[x`, the loop of `recurseArray` uses up any fuel, whatever
the visitor. -/
theorem stuck_loop_any (V : Visitor ν) (n : Nat) (path : String) (idx : Int) (hh : Bytes)
    (r : recurser (List Cell) ν) (hd : r.dec = [⟨true, .error .SyntaxError, false⟩]) :
    ∃ r', arrayLoop scriptDecoder V n path idx hh r = .outOfFuel r' := by
  induction n generalizing idx hh r with
  | zero => exact ⟨r, rfl⟩
  | succ n ih =>
    cases n with
    | zero =>
      exact ⟨{ r with dec := [⟨true, .error .SyntaxError, false⟩] },
        by simp [arrayLoop, hd, scriptDecoder, recurseToken]⟩
    | succ m =>
      obtain ⟨r', h⟩ := ih (incInt64 idx) (hh ++ r.nullSig)
        (visitScalar V (elemPath path idx) .Null r.nullSig
          { r with dec := [⟨true, .error .SyntaxError, false⟩] }) (by simp [visitScalar])
      refine ⟨r', ?_⟩
      rw [← h, arrayLoop]
      simp [hd, scriptDecoder, recurseToken, elemPath]

/-- On the input `[x`, `Recurse` uses up any fuel, whatever the visitor. -/
theorem stuck_Recurse (V : Visitor ν) (fuel : Nat) (s0 : ν) :
    ∃ s, Recurse scriptDecoder V fuel stuckArray s0 = .outOfFuel s := by
  have p0 : (precompute (newRecurser stuckArray s0)).dec
      = cellOf (.Delim '[') :: [⟨true, .error .SyntaxError, false⟩] := rfl
  simp only [Recurse, recurse]
  rw [p0, token_cells]
  cases fuel with
  | zero =>
    refine ⟨(precompute (newRecurser stuckArray s0)).visitor, ?_⟩
    simp only [recurseToken]
  | succ k =>
    cases k with
    | zero =>
      refine ⟨V.Enter "." Token.Array (precompute (newRecurser stuckArray s0)).visitor, ?_⟩
      simp only [recurseToken, recurseArray, if_true]
    | succ j =>
      obtain ⟨r', h⟩ := stuck_loop_any V j "." 0 []
        { precompute (newRecurser stuckArray s0) with
          dec := [⟨true, .error .SyntaxError, false⟩]
          visitor := V.Enter "." Token.Array (precompute (newRecurser stuckArray s0)).visitor }
        rfl
      exact ⟨r'.visitor, by simp only [recurseToken, recurseArray, if_true, h]⟩

/-- C16, at the input `[x`. `Equal` on this input against itself does not
return true: whatever the fuel, the first traversal is cut off. -/
theorem equal_self_never_returns (fuel : Nat) :
    Equal scriptDecoder scriptDecoder fuel stuckArray stuckArray = .outOfFuel () := by
  obtain ⟨s, h⟩ := stuck_Recurse rootSigVisitor fuel []
  simp [Equal, h]

/-- C20, counterexample. In the object whose member has the empty key, the
root and the member are both reported under `.`; in the object that holds
`a: 1` twice, both members are reported under `.a`; in the object with the
member `a.b` and the member `a` that holds `b`, two nodes are reported under
`.a.b`. -/
theorem paths_shared :
    Recurse scriptDecoder traceVisitor 5 emptyKey.doc []
      = .returned (none, emptyKey.events ".") ∧
    enterPaths (emptyKey.events ".") = [".", "."] ∧
    Recurse scriptDecoder traceVisitor 7 twiceA.doc [] = .returned (none, twiceA.events ".") ∧
    enterPaths (twiceA.events ".") = [".", ".a", ".a"] ∧
    Recurse scriptDecoder traceVisitor 11 dottedKey.doc []
      = .returned (none, dottedKey.events ".") ∧
    enterPaths (dottedKey.events ".") = [".", ".a.b", ".a", ".a.b"] ∧
    ¬ (enterPaths (emptyKey.events ".")).Nodup :=
  ⟨Recurse_trace _ 5 (by decide), by decide, Recurse_trace _ 7 (by decide), by decide,
   Recurse_trace _ 11 (by decide), by decide, by decide⟩

/-- Equal results and twin recursers make twin outcomes. -/
theorem twin_returned {R : σ → τ → Prop} {s : Bytes} {e : Option GoError}
    {r1 : recurser σ ν} {r2 : recurser τ ν} (h : Twin R r1 r2) :
    Outcome.twin R (.returned (s, e, r1)) (.returned (s, e, r2)) := ⟨rfl, rfl, h⟩

/-- What a traversal function does depends on the decoder through its answers
only: from twin recursers, on decoders that give the same answers, each
function ends the same way. -/
theorem twin_runs (D1 : Decoder σ) (D2 : Decoder τ) (R : σ → τ → Prop) (V : Visitor ν)
    (hA : Alike D1 D2 R) (n : Nat) :
    (∀ path t (r1 : recurser σ ν) (r2 : recurser τ ν), Twin R r1 r2 →
      Outcome.twin R (recurseToken D1 V n path t r1) (recurseToken D2 V n path t r2)) ∧
    (∀ path (r1 : recurser σ ν) (r2 : recurser τ ν), Twin R r1 r2 →
      Outcome.twin R (recurseArray D1 V n path r1) (recurseArray D2 V n path r2)) ∧
    (∀ path idx hh (r1 : recurser σ ν) (r2 : recurser τ ν), Twin R r1 r2 →
      Outcome.twin R (arrayLoop D1 V n path idx hh r1) (arrayLoop D2 V n path idx hh r2)) ∧
    (∀ path (r1 : recurser σ ν) (r2 : recurser τ ν), Twin R r1 r2 →
      Outcome.twin R (recurseObject D1 V n path r1) (recurseObject D2 V n path r2)) ∧
    (∀ path sig (r1 : recurser σ ν) (r2 : recurser τ ν), Twin R r1 r2 →
      Outcome.twin R (objectLoop D1 V n path sig r1) (objectLoop D2 V n path sig r2)) := by
  induction n with
  | zero =>
    refine ⟨?_, ?_, ?_, ?_, ?_⟩ <;> intros <;>
      simpa [recurseToken, recurseArray, arrayLoop, recurseObject, objectLoop, Outcome.twin]
  | succ n ih =>
    obtain ⟨ihT, ihA, ihAL, ihO, ihOL⟩ := ih
    refine ⟨?_, ?_, ?_, ?_, ?_⟩
    · intro path t r1 r2 h
      obtain ⟨hd, hv, hh, hp, ht, hf, hn⟩ := h
      cases t with
      | Delim c =>
        simp only [recurseToken]
        split
        · have := ihA path { r1 with visitor := V.Enter path Token.Array r1.visitor }
            { r2 with visitor := V.Enter path Token.Array r2.visitor }
            ⟨hd, by simp [hv], hh, hp, ht, hf, hn⟩
          revert this
          cases recurseArray D1 V n path _ <;> cases recurseArray D2 V n path _ <;>
            simp only [Outcome.twin, imp_self, false_imp_iff]
          rename_i a b
          obtain ⟨s1, e1, q1⟩ := a
          obtain ⟨s2, e2, q2⟩ := b
          rintro ⟨rfl, rfl, hq⟩
          exact ⟨rfl, rfl, hq.1, congrArg _ hq.2.1, hq.2.2⟩
        · split
          · have := ihO path { r1 with visitor := V.Enter path Token.Object r1.visitor }
              { r2 with visitor := V.Enter path Token.Object r2.visitor }
              ⟨hd, by simp [hv], hh, hp, ht, hf, hn⟩
            revert this
            cases recurseObject D1 V n path _ <;> cases recurseObject D2 V n path _ <;>
              simp only [Outcome.twin, imp_self, false_imp_iff]
            rename_i a b
            obtain ⟨s1, e1, q1⟩ := a
            obtain ⟨s2, e2, q2⟩ := b
            rintro ⟨rfl, rfl, hq⟩
            exact ⟨rfl, rfl, hq.1, congrArg _ hq.2.1, hq.2.2⟩
          · exact ⟨rfl, rfl, hd, hv, hh, hp, ht, hf, hn⟩
      | bool b =>
        simp only [recurseToken]
        exact ⟨by rw [ht, hf], rfl, hd, by simp [visitScalar, hv, ht, hf], hh, hp, ht, hf, hn⟩
      | Number lit =>
        simp only [recurseToken]
        exact ⟨rfl, rfl, hd, by simp [visitScalar, hv], rfl, hp, ht, hf, hn⟩
      | string s =>
        simp only [recurseToken]
        exact ⟨rfl, rfl, hd, by simp [visitScalar, hv], rfl, hp, ht, hf, hn⟩
      | nil =>
        simp only [recurseToken]
        exact ⟨hn, rfl, hd, by simp [visitScalar, hv, hn], hh, hp, ht, hf, hn⟩
      | other =>
        simp only [recurseToken]
        exact ⟨rfl, rfl, hd, hv, hh, hp, ht, hf, hn⟩
    · intro path r1 r2 h
      simp only [recurseArray]
      exact ihAL path 0 [] r1 r2 h
    · intro path idx hh r1 r2 h
      obtain ⟨hd, hv, hhs, hp, ht, hf, hn⟩ := h
      obtain ⟨-, hm1, hm2⟩ := hA _ _ hd
      obtain ⟨⟨hk1, hk2⟩, -⟩ := hA _ _ hm2
      simp only [arrayLoop]
      rw [hm1, hk1]
      split
      · generalize h1 : recurseToken D1 V n _ _ _ = o1
        generalize h2 : recurseToken D2 V n _ _ _ = o2
        have key : Outcome.twin R o1 o2 := by
          rw [← h1, ← h2]
          exact ihT _ _ _ _ ⟨hk2, hv, hhs, hp, ht, hf, hn⟩
        clear h1 h2
        cases o1 <;> cases o2 <;> simp only [Outcome.twin] at key
        · rename_i a b
          obtain ⟨s1, e1, q1⟩ := a
          obtain ⟨s2, e2, q2⟩ := b
          obtain ⟨rfl, rfl, hq⟩ := key
          cases e1 with
          | none => exact ihAL path (incInt64 idx) (hh ++ s1) q1 q2 hq
          | some e => exact ⟨rfl, rfl, hq⟩
        · exact key
        · exact key
      · exact ⟨rfl, rfl, hk2, hv, hhs, hp, ht, hf, hn⟩
    · intro path r1 r2 h
      obtain ⟨hd, hv, hhs, hp, ht, hf, hn⟩ := h
      simp only [recurseObject]
      have h1 : (sigpoolGet r1).1 = (sigpoolGet r2).1 := by
        unfold sigpoolGet
        rw [hp]
        split <;> rfl
      have h2 : Twin R (sigpoolGet r1).2 (sigpoolGet r2).2 := by
        unfold sigpoolGet
        rw [hp]
        split
        · exact ⟨hd, hv, hhs, hp, ht, hf, hn⟩
        · exact ⟨hd, hv, hhs, rfl, ht, hf, hn⟩
      rw [h1]
      exact ihOL path _ _ _ h2
    · intro path sig r1 r2 h
      obtain ⟨hd, hv, hhs, hp, ht, hf, hn⟩ := h
      obtain ⟨-, hm1, hm2⟩ := hA _ _ hd
      obtain ⟨⟨hk1, hk2⟩, -⟩ := hA _ _ hm2
      obtain ⟨⟨hv1, hv2⟩, -⟩ := hA _ _ hk2
      simp only [objectLoop]
      rw [hm1, hk1]
      split
      · split
        · exact ⟨rfl, rfl, hk2, hv, hhs, hp, ht, hf, hn⟩
        · rename_i key hkey
          rw [hv1]
          split
          · exact ⟨rfl, rfl, hv2, hv, hhs, hp, ht, hf, hn⟩
          · rename_i t htok
            generalize h1 : recurseToken D1 V n _ _ _ = o1
            generalize h2 : recurseToken D2 V n _ _ _ = o2
            have key : Outcome.twin R o1 o2 := by
              rw [← h1, ← h2]
              exact ihT _ _ _ _ ⟨hv2, hv, hhs, hp, ht, hf, hn⟩
            clear h1 h2
            cases o1 <;> cases o2 <;> simp only [Outcome.twin] at key
            · rename_i a b
              obtain ⟨s1, e1, q1⟩ := a
              obtain ⟨s2, e2, q2⟩ := b
              obtain ⟨rfl, rfl, hq⟩ := key
              cases e1 with
              | none =>
                exact ihOL path _ _ _ ⟨hq.1, hq.2.1, rfl, hq.2.2.2⟩
              | some e => exact ⟨rfl, rfl, hq⟩
            · exact key
            · exact key
        · exact ⟨hk2, hv, hhs, hp, ht, hf, hn⟩
      · exact ⟨rfl, rfl, hk2, hv, hhs, hp, ht, hf, hn⟩

/-- The calls of `Recurse` on a root array: the walks of the elements, element
`i` under `.[i]`, between the `Enter` and the `Exit` of the root. -/
theorem Recurse_array_trace (xs : List JSON) (fuel : Nat) (hx : xs.length ≤ 9223372036854775808)
    (hf : (JSON.array xs).fuel ≤ fuel) :
    Recurse scriptDecoder traceVisitor fuel (JSON.array xs).doc [] = .returned (none,
      .enter "." .Array ::
        ((xs.enum.flatMap fun q => q.2.events ("." ++ "[" ++ toString q.1 ++ "]"))
          ++ [.exit "." .Array (JSON.array xs).digest])) := by
  rw [Recurse_trace _ _ hf]
  have := elemEvents_enumFrom xs "." 0 (by omega)
  simp only [Nat.cast_zero] at this
  simp only [JSON.events, this]
  rfl

/-- The calls of `Recurse` on a root object: the walks of the members, each
under the path built from its key, between the `Enter` and the `Exit` of the
root. -/
theorem Recurse_object_trace (ms : List (String × JSON)) (fuel : Nat)
    (hf : (JSON.object ms).fuel ≤ fuel) :
    Recurse scriptDecoder traceVisitor fuel (JSON.object ms).doc [] = .returned (none,
      .enter "." .Object ::
        ((ms.flatMap fun m =>
            m.2.events (if HasSuffix "." "." then "." ++ m.1 else "." ++ "." ++ m.1))
          ++ [.exit "." .Object (JSON.object ms).digest])) := by
  rw [Recurse_trace _ _ hf]
  simp only [JSON.events, memberEvents_flatMap]
  rfl

/-- The paths of the elements of one array differ, and so do the paths of the
members of one object whose keys differ. -/
theorem sibling_path_lists (p : String) :
    (∀ xs : List JSON, (xs.enum.map fun q => p ++ "[" ++ toString q.1 ++ "]").Nodup) ∧
    (∀ ms : List (String × JSON), (ms.map Prod.fst).Nodup →
      (ms.map fun m => if HasSuffix p "." then p ++ m.1 else p ++ "." ++ m.1).Nodup) := by
  constructor
  · intro xs
    have h1 : (xs.enum.map fun q => p ++ "[" ++ toString q.1 ++ "]")
        = (xs.enum.map Prod.fst).map fun i : Nat => p ++ "[" ++ toString i ++ "]" := by
      rw [List.map_map]
      rfl
    rw [h1, List.enum_map_fst]
    exact List.Nodup.map (fun i j h => elemPath_injective p i j h) (List.nodup_range _)
  · intro ms hk
    have h1 : (ms.map fun m => if HasSuffix p "." then p ++ m.1 else p ++ "." ++ m.1)
        = (ms.map Prod.fst).map (memberPath p) := by
      simp [List.map_map, Function.comp, memberPath]
    rw [h1]
    exact List.Nodup.map (fun k k' h => memberPath_injective p k k' h) hk

/-- C20, amended. A path tells a node from its siblings. On the elements of an
array of at most `2^63` elements, `recurseArray` at the path `p` makes exactly
the calls of the walks of the elements, element `i` under `p[i]`, and these
paths are pairwise different; on the members of an object whose keys are
pairwise different, `recurseObject` at `p` makes exactly the calls of the
walks of the members, each under the path built from its key, and these paths
are pairwise different; every walk starts with the `Enter` and ends with the
`Exit` of its value, under the path of the walk. For a root array and a root
object, these are the calls that `Recurse` makes between the `Enter` and the
`Exit` of the root. -/
theorem sibling_paths_differ (p : String) (r : recurser (List Cell) (List Event))
    (rest : List Cell) (fuel : Nat) (hR : Ready r) :
    (∀ xs : List JSON, xs.length ≤ 9223372036854775808 → elemFuel xs + 2 ≤ fuel →
      r.dec = cells (elemTokens xs ++ [.Delim ']']) ++ rest →
      (∃ sig r', recurseArray scriptDecoder traceVisitor fuel p r = .returned (sig, none, r') ∧
        r'.visitor = r.visitor
          ++ xs.enum.flatMap fun q => q.2.events (p ++ "[" ++ toString q.1 ++ "]")) ∧
      (xs.enum.map fun q => p ++ "[" ++ toString q.1 ++ "]").Nodup) ∧
    (∀ ms : List (String × JSON), (ms.map Prod.fst).Nodup → memberFuel ms + 2 ≤ fuel →
      r.dec = cells (memberTokens ms ++ [.Delim '\x7d']) ++ rest →
      (∃ sig r', recurseObject scriptDecoder traceVisitor fuel p r = .returned (sig, none, r') ∧
        r'.visitor = r.visitor
          ++ ms.flatMap fun m =>
              m.2.events (if HasSuffix p "." then p ++ m.1 else p ++ "." ++ m.1)) ∧
      (ms.map fun m => if HasSuffix p "." then p ++ m.1 else p ++ "." ++ m.1).Nodup) ∧
    (∀ (w : JSON) (q : String),
      ∃ mid, w.events q = .enter q w.kind :: (mid ++ [.exit q w.kind w.digest])) ∧
    (∀ xs : List JSON, xs.length ≤ 9223372036854775808 → (JSON.array xs).fuel ≤ fuel →
      Recurse scriptDecoder traceVisitor fuel (JSON.array xs).doc [] = .returned (none,
        .enter "." .Array ::
          ((xs.enum.flatMap fun q => q.2.events ("." ++ "[" ++ toString q.1 ++ "]"))
            ++ [.exit "." .Array (JSON.array xs).digest]))) ∧
    (∀ ms : List (String × JSON), (JSON.object ms).fuel ≤ fuel →
      Recurse scriptDecoder traceVisitor fuel (JSON.object ms).doc [] = .returned (none,
        .enter "." .Object ::
          ((ms.flatMap fun m =>
              m.2.events (if HasSuffix "." "." then "." ++ m.1 else "." ++ "." ++ m.1))
            ++ [.exit "." .Object (JSON.object ms).digest]))) := by
  refine ⟨?_, ?_, fun w q => events_shape q w,
    fun xs hx hf => Recurse_array_trace xs fuel hx hf,
    fun ms hf => Recurse_object_trace ms fuel hf⟩
  · intro xs hx hf hd
    refine ⟨?_, (sibling_path_lists p).1 xs⟩
    obtain ⟨r', h, -, hv, -⟩ := (walk traceVisitor fuel).2.1 xs p r rest hR hf hd
    refine ⟨_, r', h, ?_⟩
    rw [hv, replay_trace]
    have := elemEvents_enumFrom xs p 0 (by omega)
    simp only [Nat.cast_zero] at this
    rw [this]
    rfl
  · intro ms hk hf hd
    refine ⟨?_, (sibling_path_lists p).2 ms hk⟩
    obtain ⟨r', h, -, hv, -⟩ := (walk traceVisitor fuel).2.2.2.1 ms p r rest hR hf hd
    refine ⟨_, r', h, ?_⟩
    rw [hv, replay_trace, memberEvents_flatMap]

/-- The amended C20 on the elements of `[1, 2]`, reported under `.[0]` and
`.[1]`, and on the members of the object with `Planet` and `Index`. -/
theorem sibling_paths_differ_witness :
    ([JSON.number "1", JSON.number "2"].enum.map fun q => "." ++ "[" ++ toString q.1 ++ "]")
      = [".[0]", ".[1]"] ∧
    ((∃ sig r', recurseArray scriptDecoder traceVisitor 6 "."
          (precompute (newRecurser (cells (elemTokens [.number "1", .number "2"]
            ++ [.Delim ']'])) [])) = .returned (sig, none, r') ∧
        r'.visitor = [] ++ [JSON.number "1", JSON.number "2"].enum.flatMap
          fun q => q.2.events ("." ++ "[" ++ toString q.1 ++ "]")) ∧
      ([JSON.number "1", JSON.number "2"].enum.map
        fun q => "." ++ "[" ++ toString q.1 ++ "]").Nodup) ∧
    ((∃ sig r', recurseObject scriptDecoder traceVisitor 6 "."
          (precompute (newRecurser (cells (memberTokens
            [("Planet", .string "Earth"), ("Index", .number "3")] ++ [.Delim '\x7d'])) []))
          = .returned (sig, none, r') ∧
        r'.visitor = [] ++ [("Planet", JSON.string "Earth"), ("Index", JSON.number "3")].flatMap
          fun m => m.2.events (if HasSuffix "." "." then "." ++ m.1 else "." ++ "." ++ m.1)) ∧
      ([("Planet", JSON.string "Earth"), ("Index", JSON.number "3")].map
        fun m => if HasSuffix "." "." then "." ++ m.1 else "." ++ "." ++ m.1).Nodup) ∧
    Recurse scriptDecoder traceVisitor 7 oneTwo.doc [] = .returned (none,
      .enter "." .Array ::
        (([JSON.number "1", JSON.number "2"].enum.flatMap
            fun q => q.2.events ("." ++ "[" ++ toString q.1 ++ "]"))
          ++ [.exit "." .Array oneTwo.digest])) ∧
    Recurse scriptDecoder traceVisitor 7 planetFirst.doc [] = .returned (none,
      .enter "." .Object ::
        (([("Planet", JSON.string "Earth"), ("Index", JSON.number "3")].flatMap fun m =>
            m.2.events (if HasSuffix "." "." then "." ++ m.1 else "." ++ "." ++ m.1))
          ++ [.exit "." .Object planetFirst.digest])) :=
  ⟨by decide,
   (sibling_paths_differ "." (precompute (newRecurser (cells (elemTokens
      [.number "1", .number "2"] ++ [.Delim ']'])) [])) [] 6 (ready_precompute _ _)).1
      [.number "1", .number "2"] (by decide) (by decide) (by simp [precompute, newRecurser]),
   (sibling_paths_differ "." (precompute (newRecurser (cells (memberTokens
      [("Planet", .string "Earth"), ("Index", .number "3")] ++ [.Delim '\x7d'])) []))
      [] 6 (ready_precompute _ _)).2.1
      [("Planet", .string "Earth"), ("Index", .number "3")] (by decide) (by decide)
      (by simp [precompute, newRecurser]),
   (sibling_paths_differ "." (precompute (newRecurser [] [])) [] 7
      (ready_precompute _ _)).2.2.2.1 [.number "1", .number "2"] (by decide) (by decide),
   (sibling_paths_differ "." (precompute (newRecurser [] [])) [] 7
      (ready_precompute _ _)).2.2.2.2
      [("Planet", .string "Earth"), ("Index", .number "3")] (by decide)⟩

end Jsonoscope
